import Mathlib

/-!
Shallow embedding of the booking-ledger core of `src/app.py` (a Flask +
SQLAlchemy studio class-booking application).

Modelling conventions:
* Python `date` is a day index `Nat`; Python `time` is minutes-of-day `Nat`.
  Python `datetime` comparison is lexicographic on (date, time-of-day), and a
  `timedelta` is measured here in minutes (`dtMinutes`).  Time-of-day values
  are `< 1440` in Python; theorems that mix the lexicographic and the
  minute-arithmetic views of time carry this bound as a hypothesis.
* Python ints are `Int` (credits, capacity, spots_left).
* Each DB table is a `List` of records in insertion order; `query.filter(...).first()`
  is `List.find?`, `query.filter(...).all()` iterates in list order, and a
  SQLAlchemy column update is a `List.map` touching the rows whose primary key
  matches (primary keys are unique in the DB; `Store.WF` carries this).
* `ondelete CASCADE` foreign keys guarantee each reservation's `session_id`
  resolves; a dangling reference is modelled as a distinguished
  `danglingSession` error, unreachable under `Store.WF`.
* Route handlers become pure functions `Store → Except E Store`; flashing a
  message and redirecting without writing is the identity on the store.
  Timestamp columns (`created_at`, `updated_at`) and the web/auth plumbing do
  not influence any branch of the modelled logic and are omitted.
-/

/-- The `reservation_status` enum (`ALLOWED_STATUSES` in `src/app.py`). -/
inductive Status where
  | active
  | canceled
  | moved
  | attended
  | no_show
deriving DecidableEq, Repr

/-- The `sessions` table row (`class Session`).  `date` is a day index,
`time` is minutes within the day. -/
structure Session where
  id : Nat
  date : Nat
  time : Nat
  capacity : Int
  spots_left : Int
  notes : Option String
  completed : Bool
deriving DecidableEq, Repr

/-- The `reservations` table row (`class Reservation`); timestamps omitted. -/
structure Reservation where
  id : Nat
  user_name : String
  session_id : Nat
  status : Status
deriving DecidableEq, Repr

/-- The `members` table row (`class Member`); `created_at` omitted. -/
structure Member where
  id : Nat
  full_name : String
  credits : Int
deriving DecidableEq, Repr

/-- The whole relational store, plus the autoincrement counters for the two
tables whose inserts the modelled operations perform. -/
structure Store where
  sessions : List Session
  reservations : List Reservation
  members : List Member
  nextResId : Nat
  nextSessId : Nat
deriving DecidableEq, Repr

/-- Python `datetime.combine(d, t) < datetime.combine(nd, nt)`: datetime
comparison is lexicographic on (date, time-of-day). -/
def dtBefore (d t nd nt : Nat) : Bool :=
  decide (d < nd ∨ (d = nd ∧ t < nt))

/-- `Session.is_past`: `datetime.combine(self.date, self.time) < datetime.now()`
with the current instant `now = (day, minute)`. -/
def Session.is_past (s : Session) (now : Nat × Nat) : Bool :=
  dtBefore s.date s.time now.1 now.2

/-- The minute value of the instant `(d, t)`, for `timedelta` arithmetic. -/
def dtMinutes (d t : Nat) : Int :=
  (d : Int) * 1440 + (t : Int)

/-- Python `str.lower()`, modelled as per-character lowercasing of the
string's character list. -/
def lowerStr (s : String) : String := ⟨s.data.map Char.toLower⟩

/-- Case-insensitive name lookup:
`Member.query.filter(func.lower(Member.full_name) == name.lower()).first()`. -/
def findMemberCI (name : String) (ms : List Member) : Option Member :=
  ms.find? (fun m => lowerStr m.full_name == lowerStr name)

/-- `Session.query.get(sid)` (primary-key lookup). -/
def findSession (sid : Nat) (ss : List Session) : Option Session :=
  ss.find? (fun s => s.id == sid)

/-- `Reservation.query.get(rid)` (primary-key lookup). -/
def findRes (rid : Nat) (rs : List Reservation) : Option Reservation :=
  rs.find? (fun r => r.id == rid)

/-- Column update `spots_left += delta` on the session row with id `sid`. -/
def adjustSpots (sid : Nat) (delta : Int) (ss : List Session) : List Session :=
  ss.map (fun s => if s.id == sid then { s with spots_left := s.spots_left + delta } else s)

/-- Column update `status = st` on the reservation row with id `rid`. -/
def setResStatus (rid : Nat) (st : Status) (rs : List Reservation) : List Reservation :=
  rs.map (fun r => if r.id == rid then { r with status := st } else r)

/-- The credit debit inside the settlement sweep: find the first member whose
lowercased name matches, and `if m and (m.credits or 0) > 0: m.credits -= 1`. -/
def debitMember (uname : String) : List Member → List Member
  | [] => []
  | m :: rest =>
    if lowerStr m.full_name == lowerStr uname then
      (if m.credits > 0 then { m with credits := m.credits - 1 } else m) :: rest
    else
      m :: debitMember uname rest

/-- The credit refund inside admin cancel / session delete:
`if m: m.credits += 1` on the first case-insensitive match. -/
def creditMember (uname : String) : List Member → List Member
  | [] => []
  | m :: rest =>
    if lowerStr m.full_name == lowerStr uname then
      { m with credits := m.credits + 1 } :: rest
    else
      m :: creditMember uname rest

/-- Inner loop of the settlement sweep over one closed session `sid`:
`for r in s.reservations: if r.status == 'active': r.status = 'attended'` and
debit the matching member, threading the members table through. -/
def settleRes (sid : Nat) : List Reservation → List Member → List Reservation × List Member
  | [], ms => ([], ms)
  | r :: rest, ms =>
    if r.session_id == sid && r.status == .active then
      let ms1 := debitMember r.user_name ms
      let p := settleRes sid rest ms1
      ({ r with status := .attended } :: p.1, p.2)
    else
      let p := settleRes sid rest ms
      (r :: p.1, p.2)

/-- A session matches the sweep's selection filter:
`completed is False and (date < now.date or (date == now.date and time < now.time))`. -/
def sweepSelects (now : Nat × Nat) (s : Session) : Bool :=
  !s.completed && dtBefore s.date s.time now.1 now.2

/-- Outer loop of the sweep: selected sessions get `completed = True` and their
active reservations settled; rows of the three tables are threaded through.
(The Python code first materialises `to_close` and then iterates; since
settling never touches another session's selection fields, interleaving
selection with processing is equivalent, and the early `return` on an empty
selection is the identity this fold also produces.) -/
def sweepGo (now : Nat × Nat) :
    List Session → List Reservation → List Member →
    List Session × List Reservation × List Member
  | [], rs, ms => ([], rs, ms)
  | s :: rest, rs, ms =>
    if sweepSelects now s then
      let p := settleRes s.id rs ms
      let q := sweepGo now rest p.1 p.2
      ({ s with completed := true } :: q.1, q.2)
    else
      let q := sweepGo now rest rs ms
      (s :: q.1, q.2)

/-- `close_past_sessions_and_apply_attendance` (the `before_request` settlement
sweep) as a pure function of the current instant and the store. -/
def sweepRun (now : Nat × Nat) (st : Store) : Store :=
  let q := sweepGo now st.sessions st.reservations st.members
  { st with sessions := q.1, reservations := q.2.1, members := q.2.2 }

/-- Error outcomes of the `reserve` route, in source order. -/
inductive ReserveErr where
  | notFound
  | sessionClosed
  | sessionFull
  | noCredits
  | alreadyBooked
deriving DecidableEq, Repr

/-- The `reserve(session_id)` route body (after the sweep), acting for the
logged-in user `uname`. -/
def reserveRun (now : Nat × Nat) (uname : String) (sid : Nat) (st : Store) :
    Except ReserveErr Store :=
  match findSession sid st.sessions with
  | none => .error .notFound
  | some s =>
    if s.completed || s.is_past now then .error .sessionClosed
    else if s.spots_left ≤ 0 then .error .sessionFull
    else
      match findMemberCI uname st.members with
      | none => .error .noCredits
      | some member =>
        if member.credits ≤ 0 then .error .noCredits
        else if st.reservations.any
            (fun r => r.user_name == uname && r.session_id == sid && r.status == .active) then
          .error .alreadyBooked
        else
          .ok { st with
            reservations := st.reservations ++
              [{ id := st.nextResId, user_name := uname, session_id := sid, status := .active }],
            sessions := adjustSpots sid (-1) st.sessions,
            nextResId := st.nextResId + 1 }

/-- Error outcomes of the `cancel` route, in source order. -/
inductive CancelErr where
  | notFound
  | unauthorized
  | notActive
  | tooLateToCancel
  | sessionPast
  | danglingSession
deriving DecidableEq, Repr

/-- The `cancel(reservation_id)` route body, acting for the logged-in user
`caller` at instant `now`.  The 24-hour rule is
`session_dt - datetime.now() < timedelta(hours=24)` in minutes. -/
def cancelRun (now : Nat × Nat) (caller : String) (rid : Nat) (st : Store) :
    Except CancelErr Store :=
  match findRes rid st.reservations with
  | none => .error .notFound
  | some r =>
    if r.user_name ≠ caller then .error .unauthorized
    else if r.status ≠ .active then .error .notActive
    else
      match findSession r.session_id st.sessions with
      | none => .error .danglingSession
      | some s =>
        if dtMinutes s.date s.time - dtMinutes now.1 now.2 < 24 * 60 then
          .error .tooLateToCancel
        else if s.is_past now then .error .sessionPast
        else
          .ok { st with
            reservations := setResStatus rid .canceled st.reservations,
            sessions := adjustSpots r.session_id 1 st.sessions }

/-- Error outcomes of the `move` route POST branch, in source order. -/
inductive MoveErr where
  | notFound
  | unauthorized
  | targetNotFound
  | targetPast
  | targetFull
  | danglingSession
deriving DecidableEq, Repr

/-- The `move(reservation_id)` route POST body, acting for `caller`, moving to
session `tid`.  Source mutation precedes target mutation, matching the
in-order statements `r.status = 'moved'; r.session.spots_left += 1;
db.session.add(new_r); target.spots_left -= 1`. -/
def moveRun (now : Nat × Nat) (caller : String) (rid tid : Nat) (st : Store) :
    Except MoveErr Store :=
  match findRes rid st.reservations with
  | none => .error .notFound
  | some r =>
    if r.user_name ≠ caller ∨ r.status ≠ .active then .error .unauthorized
    else
      match findSession tid st.sessions with
      | none => .error .targetNotFound
      | some target =>
        if target.is_past now then .error .targetPast
        else if target.spots_left ≤ 0 then .error .targetFull
        else
          match findSession r.session_id st.sessions with
          | none => .error .danglingSession
          | some _ =>
            .ok { st with
              reservations := setResStatus rid .moved st.reservations ++
                [{ id := st.nextResId, user_name := r.user_name,
                   session_id := tid, status := .active }],
              sessions := adjustSpots tid (-1) (adjustSpots r.session_id 1 st.sessions),
              nextResId := st.nextResId + 1 }

/-- Error outcomes of the admin cancel-with-refund route. -/
inductive AdminCancelErr where
  | notFound
  | danglingSession
deriving DecidableEq, Repr

/-- The `admin_cancel_reservation_refund(reservation_id)` route body.  An
already-canceled reservation just flashes and redirects: the store is
returned unchanged (`.ok st`).  Otherwise: `if r.status == 'attended' and m:
m.credits += 1`, `if r.status == 'active' and not r.session.completed:
r.session.spots_left += 1`, then `r.status = 'canceled'`.  `r.session` is
only dereferenced on the active branch. -/
def adminCancelRefundRun (rid : Nat) (st : Store) : Except AdminCancelErr Store :=
  match findRes rid st.reservations with
  | none => .error .notFound
  | some r =>
    if r.status = .canceled then .ok st
    else
      let ms := if r.status = .attended ∧ (findMemberCI r.user_name st.members).isSome then
          creditMember r.user_name st.members
        else st.members
      if r.status = .active then
        match findSession r.session_id st.sessions with
        | none => .error .danglingSession
        | some s =>
          .ok { st with
            members := ms,
            sessions := if !s.completed then adjustSpots r.session_id 1 st.sessions
              else st.sessions,
            reservations := setResStatus rid .canceled st.reservations }
      else
        .ok { st with
          members := ms,
          reservations := setResStatus rid .canceled st.reservations }

/-- The `admin_sessions` POST body: insert a session with
`spots_left = capacity`; the `capacity >= 0` check constraint makes the
commit fail and roll back for a negative capacity (`except: rollback`). -/
def createSessionRun (d t : Nat) (cap : Int) (note : Option String) (st : Store) : Store :=
  if 0 ≤ cap then
    { st with
      sessions := st.sessions ++
        [{ id := st.nextSessId, date := d, time := t, capacity := cap,
           spots_left := cap, notes := note, completed := false }],
      nextSessId := st.nextSessId + 1 }
  else st

instance {ε α : Type} [DecidableEq ε] [DecidableEq α] : DecidableEq (Except ε α) :=
  fun x y =>
    match x, y with
    | .ok a, .ok b =>
      if h : a = b then .isTrue (by rw [h])
      else .isFalse (by intro hc; cases hc; exact h rfl)
    | .error e, .error f =>
      if h : e = f then .isTrue (by rw [h])
      else .isFalse (by intro hc; cases hc; exact h rfl)
    | .ok _, .error _ => .isFalse (by intro hc; cases hc)
    | .error _, .ok _ => .isFalse (by intro hc; cases hc)

/-- The store an `Except`-producing operation leaves behind: on an error the
handler redirects without committing, so the store is unchanged. -/
def exceptStore (st : Store) : Except ε Store → Store
  | .ok st1 => st1
  | .error _ => st

/-- The operations the invariant claims quantify over. -/
inductive Op where
  | reserve (now : Nat × Nat) (uname : String) (sid : Nat)
  | cancel (now : Nat × Nat) (caller : String) (rid : Nat)
  | move (now : Nat × Nat) (caller : String) (rid tid : Nat)
  | adminCancelRefund (rid : Nat)
  | sweep (now : Nat × Nat)
  | createSession (d t : Nat) (cap : Int) (note : Option String)

/-- Apply one operation to the store (errors leave it unchanged). -/
def Op.apply : Op → Store → Store
  | .reserve now u sid, st => exceptStore st (reserveRun now u sid st)
  | .cancel now c rid, st => exceptStore st (cancelRun now c rid st)
  | .move now c rid tid, st => exceptStore st (moveRun now c rid tid st)
  | .adminCancelRefund rid, st => exceptStore st (adminCancelRefundRun rid st)
  | .sweep now, st => sweepRun now st
  | .createSession d t cap note, st => createSessionRun d t cap note st

/-- Number of `active` reservations referencing session `sid`. -/
def activeCount (rs : List Reservation) (sid : Nat) : Nat :=
  rs.countP (fun r => r.session_id == sid && r.status == .active)

/-- Per-session inductive invariant: spots never negative, and the seats
handed out (`activeCount`) plus the seats left never exceed capacity. -/
def SessInv (rs : List Reservation) (s : Session) : Prop :=
  0 ≤ s.spots_left ∧ s.spots_left + (activeCount rs s.id : Int) ≤ s.capacity

/-- Well-formedness the database schema guarantees: unique primary keys,
autoincrement counters ahead of every existing id, and every reservation's
foreign key resolving to a session. -/
def Store.WF (st : Store) : Prop :=
  (st.sessions.map Session.id).Nodup ∧
  (st.reservations.map Reservation.id).Nodup ∧
  (∀ r ∈ st.reservations, r.id < st.nextResId) ∧
  (∀ s ∈ st.sessions, s.id < st.nextSessId) ∧
  (∀ r ∈ st.reservations, ∃ s ∈ st.sessions, s.id = r.session_id)

/-- The full invariant: well-formed store and every session satisfying the
capacity-accounting invariant. -/
def Store.Inv (st : Store) : Prop :=
  st.WF ∧ ∀ s ∈ st.sessions, SessInv st.reservations s

instance : DecidablePred (Store.WF) := fun st => by
  unfold Store.WF; infer_instance

instance : DecidablePred (Store.Inv) := fun st => by
  unfold Store.Inv SessInv; infer_instance

/-! ### Row-level update lemmas -/

@[simp]
theorem adjustSpots_map_id (sid : Nat) (d : Int) (ss : List Session) :
    (adjustSpots sid d ss).map Session.id = ss.map Session.id := by
  unfold adjustSpots
  rw [List.map_map]
  refine List.map_congr_left ?_
  intro s _
  by_cases h : s.id = sid <;> simp [Function.comp, h]

@[simp]
theorem setResStatus_map_id (rid : Nat) (c : Status) (rs : List Reservation) :
    (setResStatus rid c rs).map Reservation.id = rs.map Reservation.id := by
  unfold setResStatus
  rw [List.map_map]
  refine List.map_congr_left ?_
  intro r _
  by_cases h : r.id = rid <;> simp [Function.comp, h]

theorem findSession_adjustSpots (j sid : Nat) (d : Int) (ss : List Session) :
    findSession j (adjustSpots sid d ss) =
      (findSession j ss).map
        (fun s => if s.id == sid then { s with spots_left := s.spots_left + d } else s) := by
  unfold findSession adjustSpots
  rw [List.find?_map]
  have hfun : ((fun s : Session => s.id == j) ∘ fun s =>
      if s.id == sid then { s with spots_left := s.spots_left + d } else s) =
      (fun s : Session => s.id == j) := by
    funext s
    by_cases h : s.id = sid <;> simp [Function.comp, h]
  rw [hfun]

theorem findSession_id {sid : Nat} {ss : List Session} {s : Session}
    (h : findSession sid ss = some s) : s.id = sid := by
  have := List.find?_some h
  simpa using this

theorem findSession_mem {sid : Nat} {ss : List Session} {s : Session}
    (h : findSession sid ss = some s) : s ∈ ss :=
  List.mem_of_find?_eq_some h

theorem findRes_id {rid : Nat} {rs : List Reservation} {r : Reservation}
    (h : findRes rid rs = some r) : r.id = rid := by
  have := List.find?_some h
  simpa using this

theorem findRes_mem {rid : Nat} {rs : List Reservation} {r : Reservation}
    (h : findRes rid rs = some r) : r ∈ rs :=
  List.mem_of_find?_eq_some h

theorem findSession_unique {ss : List Session} (hnd : (ss.map Session.id).Nodup)
    {sid : Nat} {s0 s : Session} (hf : findSession sid ss = some s0)
    (hs : s ∈ ss) (hid : s.id = sid) : s = s0 :=
  List.inj_on_of_nodup_map hnd hs (findSession_mem hf)
    (by rw [hid, findSession_id hf])

theorem setResStatus_not_mem (rid : Nat) (c : Status) (rs : List Reservation)
    (h : ∀ r ∈ rs, r.id ≠ rid) : setResStatus rid c rs = rs := by
  induction rs with
  | nil => rfl
  | cons q rest ih =>
    have hq : q.id ≠ rid := h q (by simp)
    have hrest := ih (fun r hr => h r (by simp [hr]))
    simp only [setResStatus, List.map_cons] at *
    rw [if_neg (by simp [hq]), hrest]

theorem setResStatus_cons (rid : Nat) (c : Status) (q : Reservation)
    (rest : List Reservation) :
    setResStatus rid c (q :: rest) =
      (if q.id == rid then { q with status := c } else q) :: setResStatus rid c rest := rfl

theorem activeCount_append (rs rs' : List Reservation) (sid : Nat) :
    activeCount (rs ++ rs') sid = activeCount rs sid + activeCount rs' sid := by
  simp [activeCount]

theorem activeCount_cons (r : Reservation) (rs : List Reservation) (sid : Nat) :
    activeCount (r :: rs) sid =
      activeCount rs sid +
        (if r.session_id = sid ∧ r.status = Status.active then 1 else 0) := by
  simp only [activeCount, List.countP_cons]
  congr 1
  by_cases h1 : r.session_id = sid <;> by_cases h2 : r.status = Status.active <;>
    simp [h1, h2]

theorem activeCount_setResStatus (rid : Nat) {c : Status} (hc : c ≠ Status.active)
    {rs : List Reservation} {r : Reservation}
    (hnd : (rs.map Reservation.id).Nodup)
    (hfind : findRes rid rs = some r) (sid : Nat) :
    (activeCount (setResStatus rid c rs) sid : Int) =
      (activeCount rs sid : Int) -
        (if r.session_id = sid ∧ r.status = Status.active then 1 else 0) := by
  induction rs with
  | nil => simp [findRes] at hfind
  | cons q rest ih =>
    simp only [List.map_cons, List.nodup_cons] at hnd
    rw [setResStatus_cons]
    by_cases hq : q.id = rid
    · have hr : r = q := by
        unfold findRes at hfind
        rw [List.find?_cons_of_pos _ (by simp [hq])] at hfind
        exact (Option.some_inj.mp hfind).symm
      have hrest : setResStatus rid c rest = rest := by
        refine setResStatus_not_mem rid c rest ?_
        intro x hx hxid
        apply hnd.1
        rw [hq, ← hxid]
        exact List.mem_map_of_mem Reservation.id hx
      rw [if_pos (by simp [hq]), hrest, activeCount_cons, activeCount_cons, hr]
      have hne : ¬({ q with status := c }.session_id = sid ∧
          { q with status := c }.status = Status.active) := fun hco => hc hco.2
      rw [if_neg hne]
      push_cast
      by_cases hcase : q.session_id = sid ∧ q.status = Status.active <;>
        simp [hcase]
    · have hfind' : findRes rid rest = some r := by
        unfold findRes at hfind ⊢
        rwa [List.find?_cons_of_neg _ (by simp [hq])] at hfind
      have hrec := ih hnd.2 hfind'
      rw [if_neg (by simp [hq]), activeCount_cons, activeCount_cons]
      push_cast
      push_cast at hrec
      rw [hrec]
      ring

/-! ### Structure of the settlement sweep -/

/-- Pointwise effect of settling one closed session on a reservation row. -/
def settleOne (sid : Nat) (r : Reservation) : Reservation :=
  if r.session_id == sid && r.status == Status.active then
    { r with status := Status.attended }
  else r

theorem settleRes_fst (sid : Nat) (rs : List Reservation) (ms : List Member) :
    (settleRes sid rs ms).1 = rs.map (settleOne sid) := by
  induction rs generalizing ms with
  | nil => rfl
  | cons r rest ih =>
    by_cases h : (r.session_id == sid && r.status == Status.active) = true <;>
      simp [settleRes, settleOne, h, ih]

/-- Pointwise effect of the sweep on a session row. -/
def markDone (now : Nat × Nat) (s : Session) : Session :=
  if sweepSelects now s then { s with completed := true } else s

@[simp] theorem markDone_id (now : Nat × Nat) (s : Session) :
    (markDone now s).id = s.id := by
  unfold markDone; split <;> rfl

@[simp] theorem markDone_date (now : Nat × Nat) (s : Session) :
    (markDone now s).date = s.date := by
  unfold markDone; split <;> rfl

@[simp] theorem markDone_time (now : Nat × Nat) (s : Session) :
    (markDone now s).time = s.time := by
  unfold markDone; split <;> rfl

@[simp] theorem markDone_capacity (now : Nat × Nat) (s : Session) :
    (markDone now s).capacity = s.capacity := by
  unfold markDone; split <;> rfl

@[simp] theorem markDone_spots (now : Nat × Nat) (s : Session) :
    (markDone now s).spots_left = s.spots_left := by
  unfold markDone; split <;> rfl

theorem sweepGo_fst (now : Nat × Nat) (ss : List Session) (rs : List Reservation)
    (ms : List Member) :
    (sweepGo now ss rs ms).1 = ss.map (markDone now) := by
  induction ss generalizing rs ms with
  | nil => rfl
  | cons s rest ih =>
    by_cases h : sweepSelects now s = true <;>
      simp [sweepGo, markDone, h, ih]

/-- Pointwise effect of the whole sweep over session list `ss` on a
reservation row. -/
def sweptRes (now : Nat × Nat) (ss : List Session) (r : Reservation) : Reservation :=
  if r.status == Status.active &&
      ss.any (fun s => sweepSelects now s && s.id == r.session_id) then
    { r with status := Status.attended }
  else r

theorem sweepGo_res (now : Nat × Nat) (ss : List Session) (rs : List Reservation)
    (ms : List Member) :
    (sweepGo now ss rs ms).2.1 = rs.map (sweptRes now ss) := by
  induction ss generalizing rs ms with
  | nil =>
    show rs = rs.map (sweptRes now [])
    have h0 : ∀ r ∈ rs, sweptRes now [] r = id r := by
      intro r _; simp [sweptRes]
    rw [List.map_congr_left h0, List.map_id]
  | cons s rest ih =>
    by_cases h : sweepSelects now s = true
    · simp only [sweepGo]
      rw [if_pos h]
      rw [ih, settleRes_fst, List.map_map]
      refine List.map_congr_left ?_
      intro r _
      show sweptRes now rest (settleOne s.id r) = sweptRes now (s :: rest) r
      by_cases h1 : r.status = Status.active
      · by_cases h2 : r.session_id = s.id
        · simp [settleOne, sweptRes, h, h1, h2]
        · have h2' : ¬(s.id = r.session_id) := fun hco => h2 hco.symm
          simp [settleOne, sweptRes, h, h1, h2, h2']
      · simp [settleOne, sweptRes, h1]
    · simp only [sweepGo]
      rw [if_neg h]
      show (sweepGo now rest rs ms).2.1 = rs.map (sweptRes now (s :: rest))
      rw [ih]
      refine List.map_congr_left ?_
      intro r _
      simp only [Bool.not_eq_true] at h
      simp [sweptRes, h]

theorem activeCount_sweptRes_le (now : Nat × Nat) (ss : List Session)
    (rs : List Reservation) (sid : Nat) :
    activeCount (rs.map (sweptRes now ss)) sid ≤ activeCount rs sid := by
  unfold activeCount
  rw [List.countP_map]
  refine List.countP_mono_left ?_
  intro r _ h
  unfold sweptRes at h
  by_cases hc : (r.status == Status.active &&
      ss.any (fun s => sweepSelects now s && s.id == r.session_id)) = true
  · rw [Function.comp_apply, if_pos hc] at h
    simp at h
  · rwa [Function.comp_apply, if_neg hc] at h

@[simp] theorem sweptRes_id (now : Nat × Nat) (ss : List Session) (r : Reservation) :
    (sweptRes now ss r).id = r.id := by
  unfold sweptRes; split <;> rfl

@[simp] theorem sweptRes_session_id (now : Nat × Nat) (ss : List Session)
    (r : Reservation) :
    (sweptRes now ss r).session_id = r.session_id := by
  unfold sweptRes; split <;> rfl

@[simp] theorem sweptRes_user_name (now : Nat × Nat) (ss : List Session)
    (r : Reservation) :
    (sweptRes now ss r).user_name = r.user_name := by
  unfold sweptRes; split <;> rfl

/-! ### Inversion of the booking operations -/

theorem reserveRun_ok_elim {now : Nat × Nat} {u : String} {sid : Nat} {st st' : Store}
    (h : reserveRun now u sid st = .ok st') :
    ∃ s m, findSession sid st.sessions = some s ∧
      s.completed = false ∧ s.is_past now = false ∧ 0 < s.spots_left ∧
      findMemberCI u st.members = some m ∧ 0 < m.credits ∧
      (st.reservations.any fun r =>
        r.user_name == u && r.session_id == sid && r.status == Status.active) = false ∧
      st' = { st with
        reservations := st.reservations ++
          [{ id := st.nextResId, user_name := u, session_id := sid,
             status := Status.active }],
        sessions := adjustSpots sid (-1) st.sessions,
        nextResId := st.nextResId + 1 } := by
  unfold reserveRun at h
  cases hfs : findSession sid st.sessions with
  | none => simp [hfs] at h
  | some s =>
    rw [hfs] at h
    simp only at h
    by_cases h1 : (s.completed || s.is_past now) = true
    · rw [if_pos h1] at h; cases h
    · rw [if_neg h1] at h
      by_cases h2 : s.spots_left ≤ 0
      · rw [if_pos h2] at h; cases h
      · rw [if_neg h2] at h
        cases hfm : findMemberCI u st.members with
        | none => rw [hfm] at h; cases h
        | some m =>
          rw [hfm] at h
          simp only at h
          by_cases h3 : m.credits ≤ 0
          · rw [if_pos h3] at h; cases h
          · rw [if_neg h3] at h
            by_cases h4 : (st.reservations.any fun r =>
                r.user_name == u && r.session_id == sid &&
                  r.status == Status.active) = true
            · rw [if_pos h4] at h; cases h
            · rw [if_neg h4] at h
              simp only [Bool.or_eq_true, not_or, Bool.not_eq_true] at h1
              refine ⟨s, m, rfl, h1.1, h1.2, by omega, rfl, by omega,
                by simpa using h4, ?_⟩
              exact (Except.ok.injEq _ _ ▸ h).symm

theorem cancelRun_ok_elim {now : Nat × Nat} {caller : String} {rid : Nat}
    {st st' : Store} (h : cancelRun now caller rid st = .ok st') :
    ∃ r s, findRes rid st.reservations = some r ∧
      r.user_name = caller ∧ r.status = Status.active ∧
      findSession r.session_id st.sessions = some s ∧
      24 * 60 ≤ dtMinutes s.date s.time - dtMinutes now.1 now.2 ∧
      s.is_past now = false ∧
      st' = { st with
        reservations := setResStatus rid Status.canceled st.reservations,
        sessions := adjustSpots r.session_id 1 st.sessions } := by
  unfold cancelRun at h
  cases hfr : findRes rid st.reservations with
  | none => simp [hfr] at h
  | some r =>
    rw [hfr] at h
    simp only at h
    by_cases h1 : r.user_name ≠ caller
    · rw [if_pos h1] at h; cases h
    · rw [if_neg h1] at h
      by_cases h2 : r.status ≠ Status.active
      · rw [if_pos h2] at h; cases h
      · rw [if_neg h2] at h
        cases hfs : findSession r.session_id st.sessions with
        | none => rw [hfs] at h; cases h
        | some s =>
          rw [hfs] at h
          simp only at h
          by_cases h3 : dtMinutes s.date s.time - dtMinutes now.1 now.2 < 24 * 60
          · rw [if_pos h3] at h; cases h
          · rw [if_neg h3] at h
            by_cases h4 : s.is_past now = true
            · rw [if_pos h4] at h; cases h
            · rw [if_neg h4] at h
              refine ⟨r, s, rfl, by tauto, by tauto, hfs, by omega,
                by simpa using h4, ?_⟩
              exact (Except.ok.injEq _ _ ▸ h).symm

theorem moveRun_ok_elim {now : Nat × Nat} {caller : String} {rid tid : Nat}
    {st st' : Store} (h : moveRun now caller rid tid st = .ok st') :
    ∃ r target src, findRes rid st.reservations = some r ∧
      r.user_name = caller ∧ r.status = Status.active ∧
      findSession tid st.sessions = some target ∧
      target.is_past now = false ∧ 0 < target.spots_left ∧
      findSession r.session_id st.sessions = some src ∧
      st' = { st with
        reservations := setResStatus rid Status.moved st.reservations ++
          [{ id := st.nextResId, user_name := r.user_name, session_id := tid,
             status := Status.active }],
        sessions := adjustSpots tid (-1) (adjustSpots r.session_id 1 st.sessions),
        nextResId := st.nextResId + 1 } := by
  unfold moveRun at h
  cases hfr : findRes rid st.reservations with
  | none => simp [hfr] at h
  | some r =>
    rw [hfr] at h
    simp only at h
    by_cases h1 : r.user_name ≠ caller ∨ r.status ≠ Status.active
    · rw [if_pos h1] at h; cases h
    · rw [if_neg h1] at h
      cases hft : findSession tid st.sessions with
      | none => rw [hft] at h; cases h
      | some target =>
        rw [hft] at h
        simp only at h
        by_cases h2 : target.is_past now = true
        · rw [if_pos h2] at h; cases h
        · rw [if_neg h2] at h
          by_cases h3 : target.spots_left ≤ 0
          · rw [if_pos h3] at h; cases h
          · rw [if_neg h3] at h
            cases hfsrc : findSession r.session_id st.sessions with
            | none => rw [hfsrc] at h; cases h
            | some src =>
              rw [hfsrc] at h
              simp only at h
              push_neg at h1
              refine ⟨r, target, src, rfl, h1.1, h1.2, rfl,
                by simpa using h2, by omega, hfsrc, ?_⟩
              exact (Except.ok.injEq _ _ ▸ h).symm

/-! ### Preservation of the capacity-accounting invariant -/

theorem id_mem_of_exists {ss : List Session} {k : Nat} :
    (∃ s ∈ ss, s.id = k) ↔ k ∈ ss.map Session.id := by
  simp [List.mem_map]

theorem activeCount_singleton (r : Reservation) (k : Nat) :
    activeCount [r] k =
      if r.session_id = k ∧ r.status = Status.active then 1 else 0 := by
  rw [show [r] = r :: [] from rfl, activeCount_cons]
  simp [activeCount]

theorem inv_reserve {now : Nat × Nat} {u : String} {sid : Nat} {st st' : Store}
    (hinv : st.Inv) (h : reserveRun now u sid st = .ok st') : st'.Inv := by
  obtain ⟨s, m, hfs, hcomp, hpast, hspots, hfm, hcred, hdup, hst'⟩ :=
    reserveRun_ok_elim h
  obtain ⟨⟨hndS, hndR, hltR, hltS, hfk⟩, hsess⟩ := hinv
  subst hst'
  constructor
  · refine ⟨?_, ?_, ?_, ?_, ?_⟩
    · simpa using hndS
    · simp only [List.map_append, List.map_cons, List.map_nil]
      refine List.Nodup.append hndR (List.nodup_singleton _) ?_
      intro a ha hb
      simp only [List.mem_singleton] at hb
      subst hb
      rcases List.mem_map.mp ha with ⟨q, hq, hqid⟩
      have := hltR q hq
      omega
    · intro q hq
      rcases List.mem_append.mp hq with hq | hq
      · have := hltR q hq
        show q.id < st.nextResId + 1
        omega
      · simp only [List.mem_singleton] at hq
        subst hq
        show st.nextResId < st.nextResId + 1
        omega
    · intro t ht
      have hmem := List.mem_map_of_mem Session.id ht
      rw [adjustSpots_map_id] at hmem
      rcases List.mem_map.mp hmem with ⟨t₀, ht₀, hid⟩
      have := hltS t₀ ht₀
      show t.id < st.nextSessId
      omega
    · intro q hq
      rcases List.mem_append.mp hq with hq | hq
      · rcases hfk q hq with ⟨s₀, hs₀, hsid⟩
        rw [id_mem_of_exists, adjustSpots_map_id]
        exact id_mem_of_exists.mp ⟨s₀, hs₀, hsid⟩
      · simp only [List.mem_singleton] at hq
        subst hq
        rw [id_mem_of_exists, adjustSpots_map_id]
        exact id_mem_of_exists.mp ⟨s, findSession_mem hfs, findSession_id hfs⟩
  · intro t ht
    replace ht : t ∈ adjustSpots sid (-1) st.sessions := ht
    unfold adjustSpots at ht
    rcases List.mem_map.mp ht with ⟨t₀, ht₀, rfl⟩
    obtain ⟨hSI1, hSI2⟩ := hsess t₀ ht₀
    by_cases hcase : t₀.id = sid
    · have ht₀s : t₀ = s := findSession_unique hndS hfs ht₀ hcase
      rw [if_pos (by simp [hcase])]
      have hcnt : activeCount (st.reservations ++
          [{ id := st.nextResId, user_name := u, session_id := sid,
             status := Status.active }]) t₀.id =
          activeCount st.reservations t₀.id + 1 := by
        rw [activeCount_append, activeCount_singleton, if_pos ⟨hcase.symm, rfl⟩]
      dsimp only [SessInv]
      rw [hcnt]
      push_cast
      rw [ht₀s] at hSI1 hSI2 ⊢
      constructor
      · omega
      · omega
    · rw [if_neg (by simp [hcase])]
      have hcnt : activeCount (st.reservations ++
          [{ id := st.nextResId, user_name := u, session_id := sid,
             status := Status.active }]) t₀.id =
          activeCount st.reservations t₀.id := by
        rw [activeCount_append, activeCount_singleton,
          if_neg (by intro hco; exact hcase hco.1.symm)]
        omega
      dsimp only [SessInv]
      rw [hcnt]
      exact ⟨hSI1, hSI2⟩

theorem mem_setResStatus_elim {rid : Nat} {c : Status} {rs : List Reservation}
    {q : Reservation} (hq : q ∈ setResStatus rid c rs) :
    ∃ q₀ ∈ rs, q.session_id = q₀.session_id ∧ q.id = q₀.id ∧
      q.user_name = q₀.user_name := by
  unfold setResStatus at hq
  rcases List.mem_map.mp hq with ⟨q₀, hq₀, rfl⟩
  by_cases h : q₀.id = rid
  · exact ⟨q₀, hq₀, by simp [h], by simp [h], by simp [h]⟩
  · exact ⟨q₀, hq₀, by simp [h], by simp [h], by simp [h]⟩

theorem inv_cancel {now : Nat × Nat} {caller : String} {rid : Nat} {st st' : Store}
    (hinv : st.Inv) (h : cancelRun now caller rid st = .ok st') : st'.Inv := by
  obtain ⟨r, s, hfr, howner, hact, hfs, h24, hpast, hst'⟩ := cancelRun_ok_elim h
  obtain ⟨⟨hndS, hndR, hltR, hltS, hfk⟩, hsess⟩ := hinv
  subst hst'
  constructor
  · refine ⟨?_, ?_, ?_, ?_, ?_⟩
    · simpa using hndS
    · simpa using hndR
    · intro q hq
      have hmem := List.mem_map_of_mem Reservation.id hq
      rw [setResStatus_map_id] at hmem
      rcases List.mem_map.mp hmem with ⟨q₀, hq₀, hid⟩
      have := hltR q₀ hq₀
      show q.id < st.nextResId
      omega
    · intro t ht
      have hmem := List.mem_map_of_mem Session.id ht
      rw [adjustSpots_map_id] at hmem
      rcases List.mem_map.mp hmem with ⟨t₀, ht₀, hid⟩
      have := hltS t₀ ht₀
      show t.id < st.nextSessId
      omega
    · intro q hq
      rcases mem_setResStatus_elim hq with ⟨q₀, hq₀, hsid, _, _⟩
      rcases hfk q₀ hq₀ with ⟨s₀, hs₀, hs₀id⟩
      rw [id_mem_of_exists, adjustSpots_map_id]
      exact id_mem_of_exists.mp ⟨s₀, hs₀, by rw [hs₀id, hsid]⟩
  · intro t ht
    replace ht : t ∈ adjustSpots r.session_id 1 st.sessions := ht
    unfold adjustSpots at ht
    rcases List.mem_map.mp ht with ⟨t₀, ht₀, rfl⟩
    obtain ⟨hSI1, hSI2⟩ := hsess t₀ ht₀
    have hcnt := activeCount_setResStatus rid
      (show Status.canceled ≠ Status.active by decide) hndR hfr t₀.id
    by_cases hcase : t₀.id = r.session_id
    · rw [if_pos (by simp [hcase])]
      rw [if_pos ⟨hcase.symm, hact⟩] at hcnt
      dsimp only [SessInv]
      omega
    · rw [if_neg (by simp [hcase])]
      rw [if_neg (by intro hco; exact hcase hco.1.symm)] at hcnt
      dsimp only [SessInv]
      omega

/-- Pointwise form of `adjustSpots`. -/
def spotsUpd (sid : Nat) (d : Int) (s : Session) : Session :=
  if s.id == sid then { s with spots_left := s.spots_left + d } else s

theorem adjustSpots_eq_map_upd (sid : Nat) (d : Int) (ss : List Session) :
    adjustSpots sid d ss = ss.map (spotsUpd sid d) := rfl

theorem spotsUpd_pos {sid : Nat} (d : Int) {s : Session} (h : s.id = sid) :
    spotsUpd sid d s = { s with spots_left := s.spots_left + d } := by
  unfold spotsUpd
  rw [if_pos (by simp [h])]

theorem spotsUpd_neg {sid : Nat} (d : Int) {s : Session} (h : s.id ≠ sid) :
    spotsUpd sid d s = s := by
  unfold spotsUpd
  rw [if_neg (by simp [h])]

theorem inv_move {now : Nat × Nat} {caller : String} {rid tid : Nat} {st st' : Store}
    (hinv : st.Inv) (h : moveRun now caller rid tid st = .ok st') : st'.Inv := by
  obtain ⟨r, target, src, hfr, howner, hact, hft, hpast, hspots, hfsrc, hst'⟩ :=
    moveRun_ok_elim h
  obtain ⟨⟨hndS, hndR, hltR, hltS, hfk⟩, hsess⟩ := hinv
  subst hst'
  constructor
  · refine ⟨?_, ?_, ?_, ?_, ?_⟩
    · show ((adjustSpots tid (-1) (adjustSpots r.session_id 1 st.sessions)).map
        Session.id).Nodup
      rw [adjustSpots_map_id, adjustSpots_map_id]
      exact hndS
    · simp only [List.map_append, List.map_cons, List.map_nil, setResStatus_map_id]
      refine List.Nodup.append hndR (List.nodup_singleton _) ?_
      intro a ha hb
      simp only [List.mem_singleton] at hb
      subst hb
      rcases List.mem_map.mp ha with ⟨q, hq, hqid⟩
      have := hltR q hq
      omega
    · intro q hq
      rcases List.mem_append.mp hq with hq | hq
      · rcases mem_setResStatus_elim hq with ⟨q₀, hq₀, _, hid, _⟩
        have := hltR q₀ hq₀
        show q.id < st.nextResId + 1
        omega
      · simp only [List.mem_singleton] at hq
        subst hq
        show st.nextResId < st.nextResId + 1
        omega
    · intro t ht
      have hmem := List.mem_map_of_mem Session.id ht
      rw [adjustSpots_map_id, adjustSpots_map_id] at hmem
      rcases List.mem_map.mp hmem with ⟨t₀, ht₀, hid⟩
      have := hltS t₀ ht₀
      show t.id < st.nextSessId
      omega
    · intro q hq
      rcases List.mem_append.mp hq with hq | hq
      · rcases mem_setResStatus_elim hq with ⟨q₀, hq₀, hsid, _, _⟩
        rcases hfk q₀ hq₀ with ⟨s₀, hs₀, hs₀id⟩
        rw [id_mem_of_exists, adjustSpots_map_id, adjustSpots_map_id]
        exact id_mem_of_exists.mp ⟨s₀, hs₀, by rw [hs₀id, hsid]⟩
      · simp only [List.mem_singleton] at hq
        subst hq
        rw [id_mem_of_exists, adjustSpots_map_id, adjustSpots_map_id]
        exact id_mem_of_exists.mp ⟨target, findSession_mem hft, findSession_id hft⟩
  · intro t ht
    replace ht : t ∈ adjustSpots tid (-1) (adjustSpots r.session_id 1 st.sessions) := ht
    rw [adjustSpots_eq_map_upd, adjustSpots_eq_map_upd] at ht
    rcases List.mem_map.mp ht with ⟨t₁, ht₁, rfl⟩
    rcases List.mem_map.mp ht₁ with ⟨t₀, ht₀, rfl⟩
    obtain ⟨hSI1, hSI2⟩ := hsess t₀ ht₀
    have hcnt := activeCount_setResStatus rid
      (show Status.moved ≠ Status.active by decide) hndR hfr t₀.id
    have hcnt2 : activeCount (setResStatus rid Status.moved st.reservations ++
        [{ id := st.nextResId, user_name := r.user_name, session_id := tid,
           status := Status.active }]) t₀.id =
        activeCount (setResStatus rid Status.moved st.reservations) t₀.id +
          (if tid = t₀.id then 1 else 0) := by
      rw [activeCount_append, activeCount_singleton]
      by_cases hco : tid = t₀.id
      · rw [if_pos ⟨hco, rfl⟩, if_pos hco]
      · rw [if_neg (by intro hx; exact hco hx.1), if_neg hco]
    by_cases hsrc : t₀.id = r.session_id
    · rw [spotsUpd_pos 1 hsrc]
      rw [if_pos ⟨hsrc.symm, hact⟩] at hcnt
      by_cases htid : t₀.id = tid
      · rw [spotsUpd_pos (-1)
          (show ({ t₀ with spots_left := t₀.spots_left + 1 } : Session).id = tid from htid)]
        rw [if_pos htid.symm] at hcnt2
        dsimp only [SessInv]
        rw [hcnt2]
        push_cast
        omega
      · rw [spotsUpd_neg (-1)
          (show ({ t₀ with spots_left := t₀.spots_left + 1 } : Session).id ≠ tid from htid)]
        rw [if_neg (fun hx => htid hx.symm)] at hcnt2
        dsimp only [SessInv]
        rw [hcnt2]
        push_cast
        omega
    · rw [spotsUpd_neg 1 hsrc]
      rw [if_neg (by intro hco; exact hsrc hco.1.symm)] at hcnt
      by_cases htid : t₀.id = tid
      · have ht₀t : t₀ = target := findSession_unique hndS hft ht₀ htid
        subst ht₀t
        rw [spotsUpd_pos (-1) htid]
        rw [if_pos htid.symm] at hcnt2
        dsimp only [SessInv]
        rw [hcnt2]
        push_cast
        omega
      · rw [spotsUpd_neg (-1) htid]
        rw [if_neg (fun hx => htid hx.symm)] at hcnt2
        dsimp only [SessInv]
        rw [hcnt2]
        push_cast
        omega

theorem adminCancelRefundRun_ok_elim {rid : Nat} {st st' : Store}
    (h : adminCancelRefundRun rid st = .ok st') :
    ∃ r, findRes rid st.reservations = some r ∧
      ((r.status = Status.canceled ∧ st' = st) ∨
       (r.status = Status.active ∧
         ∃ s, findSession r.session_id st.sessions = some s ∧
           st' = { st with
             sessions := if !s.completed then adjustSpots r.session_id 1 st.sessions
               else st.sessions,
             reservations := setResStatus rid Status.canceled st.reservations }) ∨
       (r.status ≠ Status.canceled ∧ r.status ≠ Status.active ∧
         st' = { st with
           members := if r.status = Status.attended ∧
               (findMemberCI r.user_name st.members).isSome
             then creditMember r.user_name st.members else st.members,
           reservations := setResStatus rid Status.canceled st.reservations })) := by
  unfold adminCancelRefundRun at h
  cases hfr : findRes rid st.reservations with
  | none => simp [hfr] at h
  | some r =>
    rw [hfr] at h
    simp only at h
    by_cases h1 : r.status = Status.canceled
    · rw [if_pos h1] at h
      exact ⟨r, rfl, Or.inl ⟨h1, ((Except.ok.injEq _ _ ▸ h)).symm⟩⟩
    · rw [if_neg h1] at h
      by_cases h2 : r.status = Status.active
      · rw [if_pos h2] at h
        cases hfs : findSession r.session_id st.sessions with
        | none => rw [hfs] at h; cases h
        | some s =>
          rw [hfs] at h
          simp only at h
          refine ⟨r, rfl, Or.inr (Or.inl ⟨h2, s, hfs, ?_⟩)⟩
          have hms : (if r.status = Status.attended ∧
              (findMemberCI r.user_name st.members).isSome
              then creditMember r.user_name st.members else st.members) =
              st.members := by
            rw [if_neg]
            intro hco
            rw [h2] at hco
            cases hco.1
          rw [hms] at h
          exact ((Except.ok.injEq _ _ ▸ h)).symm
      · rw [if_neg h2] at h
        exact ⟨r, rfl, Or.inr (Or.inr ⟨h1, h2,
          ((Except.ok.injEq _ _ ▸ h)).symm⟩)⟩

theorem WF_update {st : Store} (hwf : st.WF) {ss' : List Session}
    (hss : ss'.map Session.id = st.sessions.map Session.id)
    (rid : Nat) (c : Status) (ms' : List Member) :
    Store.WF { sessions := ss'
             , reservations := setResStatus rid c st.reservations
             , members := ms'
             , nextResId := st.nextResId
             , nextSessId := st.nextSessId } := by
  obtain ⟨hndS, hndR, hltR, hltS, hfk⟩ := hwf
  refine ⟨?_, ?_, ?_, ?_, ?_⟩
  · show (ss'.map Session.id).Nodup
    rw [hss]; exact hndS
  · simpa using hndR
  · intro q hq
    rcases mem_setResStatus_elim hq with ⟨q₀, hq₀, _, hid, _⟩
    have := hltR q₀ hq₀
    show q.id < st.nextResId
    omega
  · intro t ht
    have hmem := List.mem_map_of_mem Session.id ht
    rw [hss] at hmem
    rcases List.mem_map.mp hmem with ⟨t₀, ht₀, hid⟩
    have := hltS t₀ ht₀
    show t.id < st.nextSessId
    omega
  · intro q hq
    rcases mem_setResStatus_elim hq with ⟨q₀, hq₀, hsid, _, _⟩
    rcases hfk q₀ hq₀ with ⟨s₀, hs₀, hs₀id⟩
    show ∃ s ∈ ss', s.id = q.session_id
    rw [id_mem_of_exists, hss]
    exact id_mem_of_exists.mp ⟨s₀, hs₀, by rw [hs₀id, hsid]⟩

theorem inv_adminCancel {rid : Nat} {st st' : Store}
    (hinv : st.Inv) (h : adminCancelRefundRun rid st = .ok st') : st'.Inv := by
  obtain ⟨r, hfr, hcase⟩ := adminCancelRefundRun_ok_elim h
  obtain ⟨⟨hndS, hndR, hltR, hltS, hfk⟩, hsess⟩ := hinv
  have hwf : st.WF := ⟨hndS, hndR, hltR, hltS, hfk⟩
  rcases hcase with ⟨_, hst'⟩ | ⟨hact, s, hfs, hst'⟩ | ⟨_, hnact, hst'⟩
  · subst hst'
    exact ⟨hwf, hsess⟩
  · subst hst'
    by_cases hcm : s.completed = true
    · rw [if_neg (by simp [hcm])]
      constructor
      · exact WF_update hwf rfl rid Status.canceled st.members
      · intro t ht
        obtain ⟨hSI1, hSI2⟩ := hsess t ht
        have hcnt := activeCount_setResStatus rid
          (show Status.canceled ≠ Status.active by decide) hndR hfr t.id
        refine ⟨hSI1, ?_⟩
        by_cases hd : r.session_id = t.id ∧ r.status = Status.active
        · rw [if_pos hd] at hcnt
          show t.spots_left +
            (activeCount (setResStatus rid Status.canceled st.reservations) t.id : Int) ≤
              t.capacity
          omega
        · rw [if_neg hd] at hcnt
          show t.spots_left +
            (activeCount (setResStatus rid Status.canceled st.reservations) t.id : Int) ≤
              t.capacity
          omega
    · rw [if_pos (by simp [hcm])]
      constructor
      · exact WF_update hwf (adjustSpots_map_id _ _ _) rid Status.canceled st.members
      · intro t ht
        replace ht : t ∈ adjustSpots r.session_id 1 st.sessions := ht
        rw [adjustSpots_eq_map_upd] at ht
        rcases List.mem_map.mp ht with ⟨t₀, ht₀, rfl⟩
        obtain ⟨hSI1, hSI2⟩ := hsess t₀ ht₀
        have hcnt := activeCount_setResStatus rid
          (show Status.canceled ≠ Status.active by decide) hndR hfr t₀.id
        by_cases hcase : t₀.id = r.session_id
        · rw [spotsUpd_pos 1 hcase]
          rw [if_pos ⟨hcase.symm, hact⟩] at hcnt
          dsimp only [SessInv]
          omega
        · rw [spotsUpd_neg 1 hcase]
          rw [if_neg (by intro hco; exact hcase hco.1.symm)] at hcnt
          dsimp only [SessInv]
          omega
  · subst hst'
    constructor
    · exact WF_update hwf rfl rid Status.canceled _
    · intro t ht
      obtain ⟨hSI1, hSI2⟩ := hsess t ht
      have hcnt := activeCount_setResStatus rid
        (show Status.canceled ≠ Status.active by decide) hndR hfr t.id
      rw [if_neg (fun hco => hnact hco.2)] at hcnt
      refine ⟨hSI1, ?_⟩
      show t.spots_left +
        (activeCount (setResStatus rid Status.canceled st.reservations) t.id : Int) ≤
          t.capacity
      omega

theorem markDone_map_id (now : Nat × Nat) (ss : List Session) :
    (ss.map (markDone now)).map Session.id = ss.map Session.id := by
  rw [List.map_map]
  refine List.map_congr_left ?_
  intro s _
  simp [Function.comp]

theorem sweptRes_map_id (now : Nat × Nat) (sl : List Session) (rs : List Reservation) :
    (rs.map (sweptRes now sl)).map Reservation.id = rs.map Reservation.id := by
  rw [List.map_map]
  refine List.map_congr_left ?_
  intro r _
  simp [Function.comp]

theorem sweepRun_sessions (now : Nat × Nat) (st : Store) :
    (sweepRun now st).sessions = st.sessions.map (markDone now) := by
  unfold sweepRun
  exact sweepGo_fst now st.sessions st.reservations st.members

theorem sweepRun_reservations (now : Nat × Nat) (st : Store) :
    (sweepRun now st).reservations = st.reservations.map (sweptRes now st.sessions) := by
  unfold sweepRun
  exact sweepGo_res now st.sessions st.reservations st.members

theorem inv_sweep (now : Nat × Nat) {st : Store} (hinv : st.Inv) :
    (sweepRun now st).Inv := by
  obtain ⟨⟨hndS, hndR, hltR, hltS, hfk⟩, hsess⟩ := hinv
  constructor
  · refine ⟨?_, ?_, ?_, ?_, ?_⟩
    · rw [sweepRun_sessions, markDone_map_id]
      exact hndS
    · rw [sweepRun_reservations, sweptRes_map_id]
      exact hndR
    · intro q hq
      rw [sweepRun_reservations] at hq
      rcases List.mem_map.mp hq with ⟨q₀, hq₀, rfl⟩
      have := hltR q₀ hq₀
      show (sweptRes now st.sessions q₀).id < st.nextResId
      rw [sweptRes_id]
      omega
    · intro u hu
      rw [sweepRun_sessions] at hu
      rcases List.mem_map.mp hu with ⟨u₀, hu₀, rfl⟩
      have := hltS u₀ hu₀
      show (markDone now u₀).id < st.nextSessId
      rw [markDone_id]
      omega
    · intro q hq
      rw [sweepRun_reservations] at hq
      rcases List.mem_map.mp hq with ⟨q₀, hq₀, rfl⟩
      rcases hfk q₀ hq₀ with ⟨s₀, hs₀, hsid⟩
      show ∃ s ∈ (sweepRun now st).sessions, s.id = (sweptRes now st.sessions q₀).session_id
      rw [sweepRun_sessions, sweptRes_session_id]
      exact ⟨markDone now s₀, List.mem_map_of_mem _ hs₀, by rw [markDone_id, hsid]⟩
  · intro u hu
    rw [sweepRun_sessions] at hu
    rcases List.mem_map.mp hu with ⟨u₀, hu₀, rfl⟩
    obtain ⟨hSI1, hSI2⟩ := hsess u₀ hu₀
    have hle : (activeCount ((sweepRun now st).reservations) u₀.id : Int) ≤
        (activeCount st.reservations u₀.id : Int) := by
      rw [sweepRun_reservations]
      exact_mod_cast activeCount_sweptRes_le now st.sessions st.reservations u₀.id
    dsimp only [SessInv]
    rw [markDone_spots, markDone_id, markDone_capacity]
    constructor
    · exact hSI1
    · calc u₀.spots_left + (activeCount ((sweepRun now st).reservations) u₀.id : Int)
          ≤ u₀.spots_left + (activeCount st.reservations u₀.id : Int) := by omega
      _ ≤ u₀.capacity := hSI2

theorem inv_create {d tm : Nat} {cap : Int} {note : Option String} {st : Store}
    (hinv : st.Inv) : (createSessionRun d tm cap note st).Inv := by
  unfold createSessionRun
  by_cases hcap : 0 ≤ cap
  · rw [if_pos hcap]
    obtain ⟨⟨hndS, hndR, hltR, hltS, hfk⟩, hsess⟩ := hinv
    constructor
    · refine ⟨?_, ?_, ?_, ?_, ?_⟩
      · simp only [List.map_append, List.map_cons, List.map_nil]
        refine List.Nodup.append hndS (List.nodup_singleton _) ?_
        intro a ha hb
        simp only [List.mem_singleton] at hb
        subst hb
        rcases List.mem_map.mp ha with ⟨u, hu, huid⟩
        have := hltS u hu
        omega
      · exact hndR
      · intro q hq
        exact hltR q hq
      · intro u hu
        rcases List.mem_append.mp hu with hu | hu
        · have := hltS u hu
          show u.id < st.nextSessId + 1
          omega
        · simp only [List.mem_singleton] at hu
          subst hu
          show st.nextSessId < st.nextSessId + 1
          omega
      · intro q hq
        rcases hfk q hq with ⟨s₀, hs₀, hsid⟩
        exact ⟨s₀, List.mem_append_left _ hs₀, hsid⟩
    · intro u hu
      rcases List.mem_append.mp hu with hu | hu
      · exact hsess u hu
      · simp only [List.mem_singleton] at hu
        subst hu
        have hzero : activeCount st.reservations st.nextSessId = 0 := by
          unfold activeCount
          rw [List.countP_eq_zero]
          intro q hq
          rcases hfk q hq with ⟨s₀, hs₀, hsid⟩
          have := hltS s₀ hs₀
          simp only [Bool.and_eq_true, beq_iff_eq, not_and]
          intro hco
          omega
        constructor
        · exact hcap
        · show cap + (activeCount st.reservations st.nextSessId : Int) ≤ cap
          rw [hzero]
          omega
  · rw [if_neg hcap]
    exact hinv

/-! ### Claim C1 -/

/-- Seats left on session `sid`, if that session exists. -/
def spotsOf (st : Store) (sid : Nat) : Option Int :=
  (findSession sid st.sessions).map Session.spots_left

theorem bounds_of_inv {st : Store} (h : st.Inv) :
    ∀ s ∈ st.sessions, 0 ≤ s.spots_left ∧ s.spots_left ≤ s.capacity := by
  intro s hs
  obtain ⟨hSI1, hSI2⟩ := h.2 s hs
  have hnn : (0:Int) ≤ (activeCount st.reservations s.id : Int) := by
    exact_mod_cast Nat.zero_le _
  exact ⟨hSI1, by omega⟩

/-- Conclusion bundle of claim C1: every operation preserves the inductive
capacity invariant and hence the `0 ≤ spots_left ≤ capacity` bounds, and each
successful reserve / cancel / move changes the affected sessions' `spots_left`
by exactly ∓1. -/
def C1Concl (st : Store) : Prop :=
  (∀ op : Op, (op.apply st).Inv ∧
    ∀ s ∈ (op.apply st).sessions, 0 ≤ s.spots_left ∧ s.spots_left ≤ s.capacity) ∧
  (∀ now u sid st', reserveRun now u sid st = .ok st' →
    ∃ s, findSession sid st.sessions = some s ∧
      spotsOf st' sid = some (s.spots_left - 1)) ∧
  (∀ now c rid st', cancelRun now c rid st = .ok st' →
    ∃ r s, findRes rid st.reservations = some r ∧
      findSession r.session_id st.sessions = some s ∧
      spotsOf st' r.session_id = some (s.spots_left + 1)) ∧
  (∀ now c rid tid st', moveRun now c rid tid st = .ok st' →
    ∃ r s t, findRes rid st.reservations = some r ∧
      findSession r.session_id st.sessions = some s ∧
      findSession tid st.sessions = some t ∧
      (r.session_id ≠ tid →
        spotsOf st' r.session_id = some (s.spots_left + 1) ∧
        spotsOf st' tid = some (t.spots_left - 1)))

/-- C1: for every session and after every operation (reserve, cancel, move,
admin-cancel-with-refund, settlement sweep, session create), the session's
spots_left satisfies 0 ≤ spots_left ≤ capacity, and each reservation
create/cancel/move transaction changes spots_left by exactly ±1 without
crossing these bounds. -/
theorem claim_C1 (st : Store) (hinv : st.Inv) : C1Concl st := by
  refine ⟨?_, ?_, ?_, ?_⟩
  · intro op
    have hinv' : (op.apply st).Inv := by
      cases op with
      | reserve now u sid =>
        show (exceptStore st (reserveRun now u sid st)).Inv
        cases hres : reserveRun now u sid st with
        | ok st1 => exact inv_reserve hinv hres
        | error e => exact hinv
      | cancel now c rid =>
        show (exceptStore st (cancelRun now c rid st)).Inv
        cases hres : cancelRun now c rid st with
        | ok st1 => exact inv_cancel hinv hres
        | error e => exact hinv
      | move now c rid tid =>
        show (exceptStore st (moveRun now c rid tid st)).Inv
        cases hres : moveRun now c rid tid st with
        | ok st1 => exact inv_move hinv hres
        | error e => exact hinv
      | adminCancelRefund rid =>
        show (exceptStore st (adminCancelRefundRun rid st)).Inv
        cases hres : adminCancelRefundRun rid st with
        | ok st1 => exact inv_adminCancel hinv hres
        | error e => exact hinv
      | sweep now => exact inv_sweep now hinv
      | createSession d tm cap note => exact inv_create hinv
    exact ⟨hinv', bounds_of_inv hinv'⟩
  · intro now u sid st' hres
    obtain ⟨s, m, hfs, _, _, _, _, _, _, hst'⟩ := reserveRun_ok_elim hres
    subst hst'
    refine ⟨s, hfs, ?_⟩
    unfold spotsOf
    show (findSession sid (adjustSpots sid (-1) st.sessions)).map Session.spots_left =
      some (s.spots_left - 1)
    rw [findSession_adjustSpots, hfs]
    simp [findSession_id hfs, sub_eq_add_neg]
  · intro now c rid st' hres
    obtain ⟨r, s, hfr, _, _, hfs, _, _, hst'⟩ := cancelRun_ok_elim hres
    subst hst'
    refine ⟨r, s, hfr, hfs, ?_⟩
    unfold spotsOf
    show (findSession r.session_id
        (adjustSpots r.session_id 1 st.sessions)).map Session.spots_left =
      some (s.spots_left + 1)
    rw [findSession_adjustSpots, hfs]
    simp [findSession_id hfs]
  · intro now c rid tid st' hres
    obtain ⟨r, target, src, hfr, _, _, hft, _, _, hfsrc, hst'⟩ := moveRun_ok_elim hres
    subst hst'
    refine ⟨r, src, target, hfr, hfsrc, hft, ?_⟩
    intro hne
    constructor
    · unfold spotsOf
      show (findSession r.session_id (adjustSpots tid (-1)
          (adjustSpots r.session_id 1 st.sessions))).map Session.spots_left =
        some (src.spots_left + 1)
      rw [findSession_adjustSpots, findSession_adjustSpots, hfsrc]
      have hid := findSession_id hfsrc
      simp [hid, hne]
    · unfold spotsOf
      show (findSession tid (adjustSpots tid (-1)
          (adjustSpots r.session_id 1 st.sessions))).map Session.spots_left =
        some (target.spots_left - 1)
      rw [findSession_adjustSpots, findSession_adjustSpots, hft]
      have hid := findSession_id hft
      have hne' : ¬(tid = r.session_id) := fun hx => hne hx.symm
      simp [hid, hne', sub_eq_add_neg]

/-- A concrete open future session used to instantiate proved implications. -/
def sessW : Session :=
  ⟨1, 10, 600, 5, 5, none, false⟩

/-- A small concrete store used to instantiate proved implications. -/
def stW : Store :=
  ⟨[sessW], [], [⟨1, "ana", 3⟩], 1, 2⟩

/-- Witness: `claim_C1` applied at the concrete store `stW`. -/
theorem claim_C1_wit : Store.Inv stW ∧ C1Concl stW :=
  ⟨by decide, claim_C1 stW (by decide)⟩

/-! ### Claim C4 -/

theorem sweepGo_no_select (now : Nat × Nat) (ss : List Session)
    (rs : List Reservation) (ms : List Member)
    (h : ∀ s ∈ ss, sweepSelects now s = false) :
    sweepGo now ss rs ms = (ss, rs, ms) := by
  induction ss with
  | nil => rfl
  | cons s rest ih =>
    have hs : sweepSelects now s = false := h s (by simp)
    have hrest := ih (fun x hx => h x (by simp [hx]))
    simp only [sweepGo]
    rw [if_neg (by simp [hs]), hrest]

/-- C4: the settlement sweep is idempotent: for every store state and fixed
current time, running the sweep twice leaves the state of the first run
unchanged. -/
theorem claim_C4 (now : Nat × Nat) (st : Store) :
    sweepRun now (sweepRun now st) = sweepRun now st := by
  have hnone : ∀ s ∈ (sweepRun now st).sessions, sweepSelects now s = false := by
    rw [sweepRun_sessions]
    intro s hs
    rcases List.mem_map.mp hs with ⟨s₀, hs₀, rfl⟩
    unfold markDone
    by_cases h : sweepSelects now s₀ = true
    · rw [if_pos h]
      unfold sweepSelects
      simp
    · rw [if_neg h]
      simpa using h
  have key := sweepGo_no_select now (sweepRun now st).sessions
    (sweepRun now st).reservations (sweepRun now st).members hnone
  show Store.mk
      (sweepGo now (sweepRun now st).sessions
        (sweepRun now st).reservations (sweepRun now st).members).1
      (sweepGo now (sweepRun now st).sessions
        (sweepRun now st).reservations (sweepRun now st).members).2.1
      (sweepGo now (sweepRun now st).sessions
        (sweepRun now st).reservations (sweepRun now st).members).2.2
      (sweepRun now st).nextResId
      (sweepRun now st).nextSessId = sweepRun now st
  rw [key]

/-! ### Claim C9 -/

/-- C9: the `SessionPast` branch of `cancel` is unreachable: whenever the
reservation's session is already past, the 24-hour check fires first, so
`cancel` never returns `SessionPast` (with well-formed times of day). -/
theorem claim_C9 (now : Nat × Nat) (caller : String) (rid : Nat) (st : Store)
    (htimes : ∀ s ∈ st.sessions, s.time < 1440) (hnow : now.2 < 1440) :
    cancelRun now caller rid st ≠ .error CancelErr.sessionPast ∧
    (∀ r s, findRes rid st.reservations = some r → r.user_name = caller →
      r.status = Status.active → findSession r.session_id st.sessions = some s →
      s.is_past now = true →
      cancelRun now caller rid st = .error CancelErr.tooLateToCancel) := by
  constructor
  case right =>
    intro r s hfr howner hact hfs hpast
    have htime : s.time < 1440 := htimes s (findSession_mem hfs)
    unfold Session.is_past dtBefore at hpast
    rw [decide_eq_true_eq] at hpast
    have h24 : dtMinutes s.date s.time - dtMinutes now.1 now.2 < 24 * 60 := by
      unfold dtMinutes
      push_cast
      omega
    unfold cancelRun
    rw [hfr]
    simp only
    rw [if_neg (by rw [howner]; exact fun hco => hco rfl),
      if_neg (by rw [hact]; exact fun hco => hco rfl), hfs]
    simp only
    rw [if_pos h24]
  intro hcon
  unfold cancelRun at hcon
  cases hfr : findRes rid st.reservations with
  | none => rw [hfr] at hcon; cases hcon
  | some r =>
    rw [hfr] at hcon
    simp only at hcon
    by_cases h1 : r.user_name ≠ caller
    · rw [if_pos h1] at hcon; cases hcon
    · rw [if_neg h1] at hcon
      by_cases h2 : r.status ≠ Status.active
      · rw [if_pos h2] at hcon; cases hcon
      · rw [if_neg h2] at hcon
        cases hfs : findSession r.session_id st.sessions with
        | none => rw [hfs] at hcon; cases hcon
        | some s =>
          rw [hfs] at hcon
          simp only at hcon
          by_cases h3 : dtMinutes s.date s.time - dtMinutes now.1 now.2 < 24 * 60
          · rw [if_pos h3] at hcon; cases hcon
          · rw [if_neg h3] at hcon
            by_cases h4 : s.is_past now = true
            · -- derive the contradiction: past implies less than 24h remain
              have htime : s.time < 1440 := htimes s (findSession_mem hfs)
              unfold Session.is_past dtBefore at h4
              rw [decide_eq_true_eq] at h4
              unfold dtMinutes at h3
              push_cast at h3
              omega
            · rw [if_neg h4] at hcon
              cases hcon

/-- Witness: `claim_C9` applied at a concrete instant and store. -/
theorem claim_C9_wit :
    (∀ s ∈ stW.sessions, s.time < 1440) ∧ ((100, 600) : Nat × Nat).2 < 1440 ∧
      cancelRun (100, 600) "ana" 0 stW ≠ .error CancelErr.sessionPast :=
  ⟨by decide, by decide,
    (claim_C9 (100, 600) "ana" 0 stW (by decide) (by decide)).1⟩

/-! ### Claim C2 -/

/-- Whether an operation succeeded. -/
def exOk {ε α : Type} : Except ε α → Bool
  | .ok _ => true
  | .error _ => false

theorem reserveRun_closed {now : Nat × Nat} {u : String} {sid : Nat} {st : Store}
    {s : Session} (hfs : findSession sid st.sessions = some s)
    (h : s.completed = true ∨ s.is_past now = true) :
    reserveRun now u sid st = .error ReserveErr.sessionClosed := by
  unfold reserveRun
  rw [hfs]
  simp only
  rw [if_pos (by rcases h with h | h <;> simp [h])]

theorem reserveRun_full {now : Nat × Nat} {u : String} {sid : Nat} {st : Store}
    {s : Session} (hfs : findSession sid st.sessions = some s)
    (hc : s.completed = false) (hp : s.is_past now = false)
    (hsp : s.spots_left ≤ 0) :
    reserveRun now u sid st = .error ReserveErr.sessionFull := by
  unfold reserveRun
  rw [hfs]
  simp only
  rw [if_neg (by simp [hc, hp]), if_pos hsp]

theorem reserveRun_noCredits_none {now : Nat × Nat} {u : String} {sid : Nat}
    {st : Store} {s : Session} (hfs : findSession sid st.sessions = some s)
    (hc : s.completed = false) (hp : s.is_past now = false)
    (hsp : 0 < s.spots_left) (hm : findMemberCI u st.members = none) :
    reserveRun now u sid st = .error ReserveErr.noCredits := by
  unfold reserveRun
  rw [hfs]
  simp only
  rw [if_neg (by simp [hc, hp]), if_neg (by omega), hm]

theorem reserveRun_noCredits_some {now : Nat × Nat} {u : String} {sid : Nat}
    {st : Store} {s : Session} (hfs : findSession sid st.sessions = some s)
    (hc : s.completed = false) (hp : s.is_past now = false)
    (hsp : 0 < s.spots_left) {m : Member}
    (hm : findMemberCI u st.members = some m) (hmc : m.credits ≤ 0) :
    reserveRun now u sid st = .error ReserveErr.noCredits := by
  unfold reserveRun
  rw [hfs]
  simp only
  rw [if_neg (by simp [hc, hp]), if_neg (by omega), hm]
  simp only
  rw [if_pos hmc]

theorem reserveRun_already {now : Nat × Nat} {u : String} {sid : Nat}
    {st : Store} {s : Session} (hfs : findSession sid st.sessions = some s)
    (hc : s.completed = false) (hp : s.is_past now = false)
    (hsp : 0 < s.spots_left) {m : Member}
    (hm : findMemberCI u st.members = some m) (hmc : 0 < m.credits)
    (hdup : (st.reservations.any fun r => r.user_name == u &&
      r.session_id == sid && r.status == Status.active) = true) :
    reserveRun now u sid st = .error ReserveErr.alreadyBooked := by
  unfold reserveRun
  rw [hfs]
  simp only
  rw [if_neg (by simp [hc, hp]), if_neg (by omega), hm]
  simp only
  rw [if_neg (by omega), if_pos hdup]

theorem reserveRun_success {now : Nat × Nat} {u : String} {sid : Nat}
    {st : Store} {s : Session} (hfs : findSession sid st.sessions = some s)
    (hc : s.completed = false) (hp : s.is_past now = false)
    (hsp : 0 < s.spots_left) {m : Member}
    (hm : findMemberCI u st.members = some m) (hmc : 0 < m.credits)
    (hdup : (st.reservations.any fun r => r.user_name == u &&
      r.session_id == sid && r.status == Status.active) = false) :
    reserveRun now u sid st = .ok { st with
      reservations := st.reservations ++
        [{ id := st.nextResId, user_name := u, session_id := sid,
           status := Status.active }],
      sessions := adjustSpots sid (-1) st.sessions,
      nextResId := st.nextResId + 1 } := by
  unfold reserveRun
  rw [hfs]
  simp only
  rw [if_neg (by simp [hc, hp]), if_neg (by omega), hm]
  simp only
  rw [if_neg (by omega), if_neg (by simp [hdup])]

/-- C2: reserve succeeds exactly when the session is not completed, not past,
has spots left, the member has credits, and no active duplicate exists; it
fails with `sessionClosed` / `sessionFull` / `noCredits` / `alreadyBooked`
respectively, and on success appends an active reservation and decrements
spots_left by one; with zero credits it fails `noCredits` leaving the store
unchanged. -/
theorem claim_C2 (now : Nat × Nat) (u : String) (sid : Nat) (st : Store)
    (s : Session) (hfs : findSession sid st.sessions = some s) :
    ((exOk (reserveRun now u sid st) = true) ↔
      (s.completed = false ∧ s.is_past now = false ∧ 0 < s.spots_left ∧
       (∃ m, findMemberCI u st.members = some m ∧ 0 < m.credits) ∧
       (st.reservations.any fun r => r.user_name == u && r.session_id == sid &&
         r.status == Status.active) = false)) ∧
    ((s.completed = true ∨ s.is_past now = true) →
      reserveRun now u sid st = .error ReserveErr.sessionClosed) ∧
    (s.completed = false → s.is_past now = false → s.spots_left ≤ 0 →
      reserveRun now u sid st = .error ReserveErr.sessionFull) ∧
    (s.completed = false → s.is_past now = false → 0 < s.spots_left →
      (∀ m, findMemberCI u st.members = some m → m.credits ≤ 0) →
      reserveRun now u sid st = .error ReserveErr.noCredits) ∧
    (s.completed = false → s.is_past now = false → 0 < s.spots_left →
      (∃ m, findMemberCI u st.members = some m ∧ 0 < m.credits) →
      (st.reservations.any fun r => r.user_name == u && r.session_id == sid &&
        r.status == Status.active) = true →
      reserveRun now u sid st = .error ReserveErr.alreadyBooked) ∧
    (∀ st', reserveRun now u sid st = .ok st' →
      st'.reservations = st.reservations ++
        [{ id := st.nextResId, user_name := u, session_id := sid,
           status := Status.active }] ∧
      spotsOf st' sid = some (s.spots_left - 1) ∧
      st'.members = st.members) ∧
    (s.completed = false → s.is_past now = false → 0 < s.spots_left →
      ∀ m, findMemberCI u st.members = some m → m.credits = 0 →
      reserveRun now u sid st = .error ReserveErr.noCredits ∧
      exceptStore st (reserveRun now u sid st) = st) := by
  refine ⟨⟨?_, ?_⟩, ?_, ?_, ?_, ?_, ?_, ?_⟩
  · intro hok
    cases hres : reserveRun now u sid st with
    | error e => rw [hres] at hok; cases hok
    | ok st' =>
      obtain ⟨s2, m, hfs2, hc, hp, hsp, hmem, hmc, hdup, _⟩ :=
        reserveRun_ok_elim hres
      rw [hfs] at hfs2
      cases hfs2
      exact ⟨hc, hp, hsp, ⟨m, hmem, hmc⟩, hdup⟩
  · rintro ⟨hc, hp, hsp, ⟨m, hmem, hmc⟩, hdup⟩
    rw [reserveRun_success hfs hc hp hsp hmem hmc hdup]
    rfl
  · exact fun h => reserveRun_closed hfs h
  · exact fun hc hp hsp => reserveRun_full hfs hc hp hsp
  · intro hc hp hsp hno
    cases hm : findMemberCI u st.members with
    | none => exact reserveRun_noCredits_none hfs hc hp hsp hm
    | some m => exact reserveRun_noCredits_some hfs hc hp hsp hm (hno m hm)
  · rintro hc hp hsp ⟨m, hmem, hmc⟩ hdup
    exact reserveRun_already hfs hc hp hsp hmem hmc hdup
  · intro st' hres
    obtain ⟨s2, m, hfs2, hc, hp, hsp, hmem, hmc, hdup, hst'⟩ :=
      reserveRun_ok_elim hres
    rw [hfs] at hfs2
    cases hfs2
    subst hst'
    refine ⟨rfl, ?_, rfl⟩
    unfold spotsOf
    show (findSession sid (adjustSpots sid (-1) st.sessions)).map Session.spots_left =
      some (s.spots_left - 1)
    rw [findSession_adjustSpots, hfs]
    simp [findSession_id hfs, sub_eq_add_neg]
  · intro hc hp hsp m hmem hmc
    have herr := reserveRun_noCredits_some hfs hc hp hsp hmem (le_of_eq hmc)
    rw [herr]
    exact ⟨rfl, rfl⟩

/-- Witness: `claim_C2` applied at the concrete store `stW` and its session. -/
theorem claim_C2_wit :
    findSession 1 stW.sessions = some sessW ∧
    ((exOk (reserveRun (5, 0) "ana" 1 stW) = true) ↔
      (sessW.completed = false ∧ sessW.is_past (5, 0) = false ∧
       0 < sessW.spots_left ∧
       (∃ m, findMemberCI "ana" stW.members = some m ∧ 0 < m.credits) ∧
       (stW.reservations.any fun r => r.user_name == "ana" && r.session_id == 1 &&
         r.status == Status.active) = false)) := by
  constructor
  · decide
  · exact (claim_C2 (5, 0) "ana" 1 stW sessW (by decide)).1

/-! ### Claim C5 -/

theorem findRes_setResStatus (j rid : Nat) (c : Status) (rs : List Reservation) :
    findRes j (setResStatus rid c rs) =
      (findRes j rs).map (fun r => if r.id == rid then { r with status := c } else r) := by
  unfold findRes setResStatus
  rw [List.find?_map]
  have hfun : ((fun r : Reservation => r.id == j) ∘ fun r =>
      if r.id == rid then { r with status := c } else r) =
      (fun r : Reservation => r.id == j) := by
    funext r
    by_cases h : r.id = rid <;> simp [Function.comp, h]
  rw [hfun]

theorem creditMember_split {uname : String} {ms : List Member} {m : Member}
    (hm : findMemberCI uname ms = some m) :
    ∃ pre post, ms = pre ++ m :: post ∧
      creditMember uname ms = pre ++ { m with credits := m.credits + 1 } :: post := by
  induction ms with
  | nil => simp [findMemberCI] at hm
  | cons m₀ rest ih =>
    by_cases h : lowerStr m₀.full_name = lowerStr uname
    · have hm₀ : m₀ = m := by
        unfold findMemberCI at hm
        rw [List.find?_cons_of_pos _ (by simp [h])] at hm
        exact Option.some_inj.mp hm
      subst hm₀
      refine ⟨[], rest, rfl, ?_⟩
      simp only [creditMember, List.nil_append]
      rw [if_pos (by simp [h])]
    · have hm' : findMemberCI uname rest = some m := by
        unfold findMemberCI at hm ⊢
        rwa [List.find?_cons_of_neg _ (by simp [h])] at hm
      rcases ih hm' with ⟨pre, post, hsplit, hcred⟩
      refine ⟨m₀ :: pre, post, by simp [hsplit], ?_⟩
      simp only [creditMember, List.cons_append]
      rw [if_neg (by simp [h]), hcred]

/-- C5: admin cancel-with-refund is a no-op on already-canceled reservations;
otherwise it cancels the reservation, refunds one credit when the prior
status was attended (session and seats untouched), and refunds one seat when
the prior status was active on a non-completed session; an active reservation
of a completed session gets no seat back. -/
theorem claim_C5 (rid : Nat) (st : Store) (r : Reservation)
    (hfr : findRes rid st.reservations = some r) :
    (r.status = Status.canceled → adminCancelRefundRun rid st = .ok st) ∧
    (r.status = Status.attended → ∀ m, findMemberCI r.user_name st.members = some m →
      ∃ st', adminCancelRefundRun rid st = .ok st' ∧
        st'.sessions = st.sessions ∧
        st'.members = creditMember r.user_name st.members ∧
        st'.reservations = setResStatus rid Status.canceled st.reservations) ∧
    (r.status = Status.active → ∀ s, findSession r.session_id st.sessions = some s →
      s.completed = false →
      ∃ st', adminCancelRefundRun rid st = .ok st' ∧
        st'.sessions = adjustSpots r.session_id 1 st.sessions ∧
        st'.members = st.members ∧
        st'.reservations = setResStatus rid Status.canceled st.reservations) ∧
    (r.status = Status.active → ∀ s, findSession r.session_id st.sessions = some s →
      s.completed = true →
      ∃ st', adminCancelRefundRun rid st = .ok st' ∧
        st'.sessions = st.sessions ∧ st'.members = st.members ∧
        st'.reservations = setResStatus rid Status.canceled st.reservations) ∧
    (st.WF → r.status ≠ Status.canceled →
      ∃ st', adminCancelRefundRun rid st = .ok st' ∧
        findRes rid st'.reservations = some { r with status := Status.canceled }) ∧
    (∀ uname (ms : List Member) m, findMemberCI uname ms = some m →
      ∃ pre post, ms = pre ++ m :: post ∧
        creditMember uname ms = pre ++ { m with credits := m.credits + 1 } :: post) := by
  have hid := findRes_id hfr
  refine ⟨?_, ?_, ?_, ?_, ?_, ?_⟩
  · intro h1
    unfold adminCancelRefundRun
    rw [hfr]
    simp only
    rw [if_pos h1]
  · intro h1 m hm
    refine ⟨{ st with members := creditMember r.user_name st.members, reservations := setResStatus rid Status.canceled st.reservations }, ?_, rfl, rfl, rfl⟩
    unfold adminCancelRefundRun
    rw [hfr]
    simp [h1, hm]
  · intro h1 s hfs hcm
    refine ⟨{ st with sessions := adjustSpots r.session_id 1 st.sessions, reservations := setResStatus rid Status.canceled st.reservations }, ?_, rfl, rfl, rfl⟩
    unfold adminCancelRefundRun
    rw [hfr]
    simp [h1, hfs, hcm]
  · intro h1 s hfs hcm
    refine ⟨{ st with reservations := setResStatus rid Status.canceled st.reservations }, ?_, rfl, rfl, rfl⟩
    unfold adminCancelRefundRun
    rw [hfr]
    simp [h1, hfs, hcm]
  · intro hwf h1
    have hfind : findRes rid (setResStatus rid Status.canceled st.reservations) = some { r with status := Status.canceled } := by
      rw [findRes_setResStatus, hfr]
      simp [hid]
    by_cases h2 : r.status = Status.active
    · obtain ⟨_, _, _, _, hfk⟩ := hwf
      rcases hfk r (findRes_mem hfr) with ⟨s, hs, hsid⟩
      have hfs : (findSession r.session_id st.sessions).isSome := by
        unfold findSession
        rw [List.find?_isSome]
        exact ⟨s, hs, by simp [hsid]⟩
      cases hfs2 : findSession r.session_id st.sessions with
      | none => rw [hfs2] at hfs; cases hfs
      | some s2 =>
        by_cases hcm : s2.completed = true
        · refine ⟨{ st with reservations := setResStatus rid Status.canceled st.reservations }, ?_, hfind⟩
          unfold adminCancelRefundRun
          rw [hfr]
          simp [h2, hfs2, hcm]
        · replace hcm : s2.completed = false := by
            cases hco : s2.completed
            · rfl
            · exact absurd hco hcm
          refine ⟨{ st with sessions := adjustSpots r.session_id 1 st.sessions, reservations := setResStatus rid Status.canceled st.reservations }, ?_, hfind⟩
          unfold adminCancelRefundRun
          rw [hfr]
          simp [h2, hfs2, hcm]
    · refine ⟨{ st with members := if r.status = Status.attended ∧ (findMemberCI r.user_name st.members).isSome then creditMember r.user_name st.members else st.members, reservations := setResStatus rid Status.canceled st.reservations }, ?_, hfind⟩
      unfold adminCancelRefundRun
      rw [hfr]
      simp [h1, h2]
  · intro uname ms m hm
    exact creditMember_split hm

/-- A concrete already-canceled reservation. -/
def resW : Reservation := ⟨7, "ana", 1, Status.canceled⟩

/-- A store holding `resW` on a completed session. -/
def stW2 : Store :=
  ⟨[⟨1, 10, 600, 5, 4, none, true⟩], [resW], [⟨1, "ana", 3⟩], 8, 2⟩

/-- Witness: `claim_C5` on the already-canceled `resW` is a no-op. -/
theorem claim_C5_wit :
    findRes 7 stW2.reservations = some resW ∧
      adminCancelRefundRun 7 stW2 = .ok stW2 :=
  ⟨by decide, (claim_C5 7 stW2 resW (by decide)).1 (by decide)⟩

/-! ### Claim C6 -/

/-- Conclusion bundle of claim C6 (see `claim_C6`): effects of a successful
move, and conservation of booked seats across source and target. -/
def C6Concl (rid tid : Nat) (st st' : Store) : Prop :=
  ∃ r src target, findRes rid st.reservations = some r ∧
    findSession r.session_id st.sessions = some src ∧
    findSession tid st.sessions = some target ∧
    findRes rid st'.reservations = some { r with status := Status.moved } ∧
    ({ id := st.nextResId, user_name := r.user_name, session_id := tid,
       status := Status.active } : Reservation) ∈ st'.reservations ∧
    (r.session_id ≠ tid →
      ∃ src' target', findSession r.session_id st'.sessions = some src' ∧
        findSession tid st'.sessions = some target' ∧
        src'.spots_left = src.spots_left + 1 ∧
        target'.spots_left = target.spots_left - 1 ∧
        src'.capacity = src.capacity ∧ target'.capacity = target.capacity ∧
        (src'.capacity - src'.spots_left) + (target'.capacity - target'.spots_left) =
          (src.capacity - src.spots_left) + (target.capacity - target.spots_left))

/-- C6: a successful move marks the original reservation `moved`, adds one
seat back to the source, creates a new active reservation on the target and
takes one seat there, conserving the total booked seats over the two
sessions. -/
theorem claim_C6 (now : Nat × Nat) (caller : String) (rid tid : Nat)
    (st st' : Store) (hok : moveRun now caller rid tid st = .ok st') :
    C6Concl rid tid st st' := by
  obtain ⟨r, target, src, hfr, howner, hact, hft, hpast, hspots, hfsrc, hst'⟩ :=
    moveRun_ok_elim hok
  subst hst'
  have hid := findRes_id hfr
  refine ⟨r, src, target, hfr, hfsrc, hft, ?_, ?_, ?_⟩
  · show findRes rid (setResStatus rid Status.moved st.reservations ++
      [{ id := st.nextResId, user_name := r.user_name, session_id := tid,
         status := Status.active }]) = some { r with status := Status.moved }
    unfold findRes
    rw [List.find?_append]
    have h1 : findRes rid (setResStatus rid Status.moved st.reservations) =
        some { r with status := Status.moved } := by
      rw [findRes_setResStatus, hfr]
      simp [hid]
    unfold findRes at h1
    rw [h1]
    rfl
  · show _ ∈ setResStatus rid Status.moved st.reservations ++
      [{ id := st.nextResId, user_name := r.user_name, session_id := tid,
         status := Status.active }]
    exact List.mem_append_right _ (by simp)
  · intro hne
    have hsrcid := findSession_id hfsrc
    have htgtid := findSession_id hft
    refine ⟨{ src with spots_left := src.spots_left + 1 },
      { target with spots_left := target.spots_left + (-1) }, ?_, ?_, rfl, ?_, rfl, rfl, ?_⟩
    · show findSession r.session_id (adjustSpots tid (-1)
        (adjustSpots r.session_id 1 st.sessions)) = _
      rw [findSession_adjustSpots, findSession_adjustSpots, hfsrc]
      have hne2 : ¬(src.id = tid) := by rw [hsrcid]; exact hne
      simp [hsrcid, hne2, hne]
    · show findSession tid (adjustSpots tid (-1)
        (adjustSpots r.session_id 1 st.sessions)) = _
      rw [findSession_adjustSpots, findSession_adjustSpots, hft]
      have hne2 : ¬(target.id = r.session_id) := by
        rw [htgtid]; exact fun hx => hne hx.symm
      have hne3 : ¬(tid = r.session_id) := fun hx => hne hx.symm
      simp [htgtid, hne2, hne3]
    · show target.spots_left + (-1) = target.spots_left - 1
      ring
    · show src.capacity - (src.spots_left + 1) +
        (target.capacity - (target.spots_left + (-1))) =
          src.capacity - src.spots_left + (target.capacity - target.spots_left)
      ring

/-- Source session for the move witnesses. -/
def sessA : Session := ⟨1, 10, 600, 5, 1, none, false⟩

/-- Target session for the move witnesses. -/
def sessB : Session := ⟨2, 10, 700, 3, 3, none, false⟩

/-- Store with an active reservation of ana on `sessA`. -/
def stW3 : Store :=
  ⟨[sessA, sessB], [⟨7, "ana", 1, Status.active⟩], [⟨1, "ana", 3⟩], 8, 3⟩

/-- Result of moving ana's reservation from `sessA` to `sessB` in `stW3`. -/
def stW3' : Store :=
  ⟨[⟨1, 10, 600, 5, 2, none, false⟩, ⟨2, 10, 700, 3, 2, none, false⟩],
    [⟨7, "ana", 1, Status.moved⟩, ⟨8, "ana", 2, Status.active⟩],
    [⟨1, "ana", 3⟩], 9, 3⟩

/-- Witness: `claim_C6` on a concrete successful move. -/
theorem claim_C6_wit :
    moveRun (5, 0) "ana" 7 2 stW3 = .ok stW3' ∧ C6Concl 7 2 stW3 stW3' :=
  ⟨by decide, claim_C6 (5, 0) "ana" 7 2 stW3 stW3' (by decide)⟩

/-! ### Claim C7 -/

/-- C7: if a reserve succeeds and a later cancel of the reservation it created
succeeds, the session's spots_left is back at its pre-reserve value. -/
theorem claim_C7 (now now' : Nat × Nat) (u : String) (sid : Nat)
    (st st1 st2 : Store)
    (hfresh : ∀ q ∈ st.reservations, q.id < st.nextResId)
    (h1 : reserveRun now u sid st = .ok st1)
    (h2 : cancelRun now' u st.nextResId st1 = .ok st2) :
    spotsOf st2 sid = spotsOf st sid := by
  obtain ⟨s, m, hfs, _, _, _, _, _, _, hst1⟩ := reserveRun_ok_elim h1
  obtain ⟨r2, s2, hfr2, _, _, hfs2, _, _, hst2⟩ := cancelRun_ok_elim h2
  subst hst1
  have hr2 : r2 = (⟨st.nextResId, u, sid, Status.active⟩ : Reservation) := by
    have : findRes st.nextResId (st.reservations ++
        [{ id := st.nextResId, user_name := u, session_id := sid,
           status := Status.active }]) = some r2 := hfr2
    unfold findRes at this
    rw [List.find?_append] at this
    have hnone : st.reservations.find? (fun q => q.id == st.nextResId) = none := by
      rw [List.find?_eq_none]
      intro q hq
      have := hfresh q hq
      simp
      omega
    rw [hnone, Option.none_or] at this
    simp at this
    exact this.symm
  subst hst2
  have hsid2 : r2.session_id = sid := by rw [hr2]
  rw [hsid2]
  unfold spotsOf
  show (findSession sid (adjustSpots sid 1 (adjustSpots sid (-1)
      st.sessions))).map Session.spots_left = _
  rw [findSession_adjustSpots, findSession_adjustSpots, hfs]
  have hidd := findSession_id hfs
  simp [hidd]

/-- Store after ana reserves session 1 in `stW`. -/
def stA1 : Store :=
  ⟨[⟨1, 10, 600, 5, 4, none, false⟩], [⟨1, "ana", 1, Status.active⟩],
    [⟨1, "ana", 3⟩], 2, 2⟩

/-- Store after ana then cancels that reservation. -/
def stA2 : Store :=
  ⟨[⟨1, 10, 600, 5, 5, none, false⟩], [⟨1, "ana", 1, Status.canceled⟩],
    [⟨1, "ana", 3⟩], 2, 2⟩

/-- Witness: `claim_C7` on a concrete reserve-then-cancel pair. -/
theorem claim_C7_wit :
    (∀ q ∈ stW.reservations, q.id < stW.nextResId) ∧
    reserveRun (5, 0) "ana" 1 stW = .ok stA1 ∧
    cancelRun (5, 0) "ana" stW.nextResId stA1 = .ok stA2 ∧
    spotsOf stA2 1 = spotsOf stW 1 :=
  ⟨by decide, by decide, by decide,
    claim_C7 (5, 0) (5, 0) "ana" 1 stW stA1 stA2 (by decide) (by decide) (by decide)⟩

/-! ### Claim C8 -/

/-- Conclusion bundle of claim C8 (see `claim_C8`): every error outcome of a
booking operation leaves the store untouched, and in particular a move to a
full target fails `targetFull` with the source reservation intact. -/
def C8Concl (st : Store) : Prop :=
  (∀ now u sid e, reserveRun now u sid st = .error e →
    exceptStore st (reserveRun now u sid st) = st) ∧
  (∀ now c rid e, cancelRun now c rid st = .error e →
    exceptStore st (cancelRun now c rid st) = st) ∧
  (∀ now c rid tid e, moveRun now c rid tid st = .error e →
    exceptStore st (moveRun now c rid tid st) = st) ∧
  (∀ rid e, adminCancelRefundRun rid st = .error e →
    exceptStore st (adminCancelRefundRun rid st) = st) ∧
  (∀ now c rid tid r target, findRes rid st.reservations = some r →
    r.user_name = c → r.status = Status.active →
    findSession tid st.sessions = some target →
    target.is_past now = false → target.spots_left ≤ 0 →
    moveRun now c rid tid st = .error MoveErr.targetFull ∧
    exceptStore st (moveRun now c rid tid st) = st ∧
    findRes rid (exceptStore st (moveRun now c rid tid st)).reservations = some r)

/-- C8: every domain-rule violation aborts the operation with no partial
mutation: the stores are exactly as before the call, and a move to a full
target creates no reservation and leaves the source reservation untouched. -/
theorem claim_C8 (st : Store) : C8Concl st := by
  refine ⟨?_, ?_, ?_, ?_, ?_⟩
  · intro now u sid e he
    rw [he]
    rfl
  · intro now c rid e he
    rw [he]
    rfl
  · intro now c rid tid e he
    rw [he]
    rfl
  · intro rid e he
    rw [he]
    rfl
  · intro now c rid tid r target hfr howner hact hft hpast hfull
    have herr : moveRun now c rid tid st = .error MoveErr.targetFull := by
      unfold moveRun
      rw [hfr]
      simp only
      rw [if_neg (by push_neg; exact ⟨howner, hact⟩), hft]
      simp only
      rw [if_neg (by simp [hpast]), if_pos hfull]
    refine ⟨herr, ?_, ?_⟩
    · rw [herr]
      rfl
    · rw [herr]
      exact hfr

/-- Store whose target session `sessBFull` has no seats left. -/
def stW4 : Store :=
  ⟨[sessA, ⟨2, 10, 700, 3, 0, none, false⟩],
    [⟨7, "ana", 1, Status.active⟩], [⟨1, "ana", 3⟩], 8, 3⟩

/-- Witness: `claim_C8` exercised on the full-target move in `stW4`. -/
theorem claim_C8_wit :
    C8Concl stW4 ∧
      (moveRun (5, 0) "ana" 7 2 stW4 = .error MoveErr.targetFull ∧
        exceptStore stW4 (moveRun (5, 0) "ana" 7 2 stW4) = stW4 ∧
        findRes 7 (exceptStore stW4 (moveRun (5, 0) "ana" 7 2 stW4)).reservations =
          some ⟨7, "ana", 1, Status.active⟩) :=
  ⟨claim_C8 stW4,
    (claim_C8 stW4).2.2.2.2 (5, 0) "ana" 7 2 ⟨7, "ana", 1, Status.active⟩
      ⟨2, 10, 700, 3, 0, none, false⟩ (by decide) (by decide) (by decide)
      (by decide) (by decide) (by decide)⟩

/-! ### Claim C10 -/

/-- Store for the duplicate-booking-via-move scenario. -/
def stC10 : Store :=
  ⟨[⟨1, 10, 600, 1, 1, none, false⟩, ⟨2, 10, 700, 3, 3, none, false⟩], [],
    [⟨1, "ana", 2⟩], 100, 3⟩

/-- `stC10` after ana reserves session 1. -/
def stC10a : Store :=
  ⟨[⟨1, 10, 600, 1, 0, none, false⟩, ⟨2, 10, 700, 3, 3, none, false⟩],
    [⟨100, "ana", 1, Status.active⟩], [⟨1, "ana", 2⟩], 101, 3⟩

/-- `stC10a` after ana also reserves session 2. -/
def stC10b : Store :=
  ⟨[⟨1, 10, 600, 1, 0, none, false⟩, ⟨2, 10, 700, 3, 2, none, false⟩],
    [⟨100, "ana", 1, Status.active⟩, ⟨101, "ana", 2, Status.active⟩],
    [⟨1, "ana", 2⟩], 102, 3⟩

/-- `stC10b` after ana moves her session-1 reservation onto session 2, where
she already has an active reservation. -/
def stC10c : Store :=
  ⟨[⟨1, 10, 600, 1, 1, none, false⟩, ⟨2, 10, 700, 3, 1, none, false⟩],
    [⟨100, "ana", 1, Status.moved⟩, ⟨101, "ana", 2, Status.active⟩,
     ⟨102, "ana", 2, Status.active⟩],
    [⟨1, "ana", 2⟩], 103, 3⟩

/-- C10: move enforces no duplicate-booking rule: from a reachable state,
moving an active reservation onto a session the member already actively holds
succeeds and leaves two simultaneous active reservations there, a state
reserve itself rejects as AlreadyBooked; a move whose target equals its
source is also accepted. -/
theorem claim_C10 :
    reserveRun (5, 0) "ana" 1 stC10 = .ok stC10a ∧
    reserveRun (5, 0) "ana" 2 stC10a = .ok stC10b ∧
    moveRun (5, 0) "ana" 100 2 stC10b = .ok stC10c ∧
    (stC10c.reservations.filter (fun q => q.user_name == "ana" &&
      q.session_id == 2 && q.status == Status.active)).length = 2 ∧
    reserveRun (5, 0) "ana" 2 stC10c = .error ReserveErr.alreadyBooked ∧
    exOk (moveRun (5, 0) "ana" 101 2 stC10c) = true :=
  ⟨by decide, by decide, by decide, by decide, by decide, by decide⟩

/-! ### Claim C3 -/

theorem debitMember_split {uname : String} {ms : List Member} {m : Member}
    (hm : findMemberCI uname ms = some m) (hpos : 0 < m.credits) :
    ∃ pre post, ms = pre ++ m :: post ∧
      debitMember uname ms = pre ++ { m with credits := m.credits - 1 } :: post := by
  induction ms with
  | nil => simp [findMemberCI] at hm
  | cons m₀ rest ih =>
    by_cases h : lowerStr m₀.full_name = lowerStr uname
    · have hm₀ : m₀ = m := by
        unfold findMemberCI at hm
        rw [List.find?_cons_of_pos _ (by simp [h])] at hm
        exact Option.some_inj.mp hm
      subst hm₀
      refine ⟨[], rest, rfl, ?_⟩
      simp only [debitMember, List.nil_append]
      rw [if_pos (by simp [h]), if_pos hpos]
    · have hm' : findMemberCI uname rest = some m := by
        unfold findMemberCI at hm ⊢
        rwa [List.find?_cons_of_neg _ (by simp [h])] at hm
      rcases ih hm' with ⟨pre, post, hsplit, hdeb⟩
      refine ⟨m₀ :: pre, post, by simp [hsplit], ?_⟩
      simp only [debitMember, List.cons_append]
      rw [if_neg (by simp [h]), hdeb]

theorem debitMember_zero {uname : String} {ms : List Member} {m : Member}
    (hm : findMemberCI uname ms = some m) (hz : m.credits ≤ 0) :
    debitMember uname ms = ms := by
  induction ms with
  | nil => rfl
  | cons m₀ rest ih =>
    by_cases h : lowerStr m₀.full_name = lowerStr uname
    · have hm₀ : m₀ = m := by
        unfold findMemberCI at hm
        rw [List.find?_cons_of_pos _ (by simp [h])] at hm
        exact Option.some_inj.mp hm
      subst hm₀
      simp only [debitMember]
      rw [if_pos (by simp [h]), if_neg (by omega)]
    · have hm' : findMemberCI uname rest = some m := by
        unfold findMemberCI at hm ⊢
        rwa [List.find?_cons_of_neg _ (by simp [h])] at hm
      simp only [debitMember]
      rw [if_neg (by simp [h]), ih hm']

theorem debitMember_none {uname : String} {ms : List Member}
    (hm : findMemberCI uname ms = none) :
    debitMember uname ms = ms := by
  induction ms with
  | nil => rfl
  | cons m₀ rest ih =>
    unfold findMemberCI at hm
    rw [List.find?_eq_none] at hm
    have h : ¬(lowerStr m₀.full_name = lowerStr uname) := by
      have := hm m₀ (by simp)
      simpa using this
    have hrest : findMemberCI uname rest = none := by
      unfold findMemberCI
      rw [List.find?_eq_none]
      intro x hx
      exact hm x (by simp [hx])
    simp only [debitMember]
    rw [if_neg (by simp [h]), ih hrest]

theorem sweptRes_eq (now : Nat × Nat) (ss : List Session) (r : Reservation) :
    sweptRes now ss r =
      if r.status = Status.active ∧
          (∃ s ∈ ss, sweepSelects now s = true ∧ s.id = r.session_id)
        then { r with status := Status.attended } else r := by
  unfold sweptRes
  by_cases h1 : r.status = Status.active
  · by_cases h2 : ∃ s ∈ ss, sweepSelects now s = true ∧ s.id = r.session_id
    · have hb : (r.status == Status.active &&
          ss.any fun s => sweepSelects now s && s.id == r.session_id) = true := by
        simp only [Bool.and_eq_true, beq_iff_eq, List.any_eq_true]
        rcases h2 with ⟨s, hs, hsel, hid⟩
        exact ⟨h1, s, hs, by simp [hsel, hid]⟩
      rw [if_pos hb, if_pos ⟨h1, h2⟩]
    · have hb : ¬((r.status == Status.active &&
          ss.any fun s => sweepSelects now s && s.id == r.session_id) = true) := by
        simp only [Bool.and_eq_true, beq_iff_eq, List.any_eq_true]
        rintro ⟨_, s, hs, hsel, hid⟩
        exact h2 ⟨s, hs, hsel, hid⟩
      rw [if_neg hb, if_neg (fun hco => h2 hco.2)]
  · have hb : ¬((r.status == Status.active &&
        ss.any fun s => sweepSelects now s && s.id == r.session_id) = true) := by
      simp [h1]
    rw [if_neg hb, if_neg (fun hco => h1 hco.1)]

theorem sweepRun_no_select (now : Nat × Nat) (st : Store)
    (h : ∀ s ∈ st.sessions, sweepSelects now s = false) :
    sweepRun now st = st := by
  have key := sweepGo_no_select now st.sessions st.reservations st.members h
  show Store.mk
      (sweepGo now st.sessions st.reservations st.members).1
      (sweepGo now st.sessions st.reservations st.members).2.1
      (sweepGo now st.sessions st.reservations st.members).2.2
      st.nextResId st.nextSessId = st
  rw [key]

/-- C3: the sweep selects exactly the uncompleted sessions strictly before
now, marks them completed, turns their active reservations into attended,
debits the first case-insensitively matching member by one credit only when
found with positive credits (zero-credit members are silently skipped, a
missing member is no error), and does nothing when no session is selected. -/
theorem claim_C3 (now : Nat × Nat) (st : Store) :
    ((sweepRun now st).sessions = st.sessions.map (markDone now) ∧
     (∀ s : Session, sweepSelects now s = true ↔
       (s.completed = false ∧
        (s.date < now.1 ∨ (s.date = now.1 ∧ s.time < now.2)))) ∧
     (∀ s : Session, markDone now s =
       if sweepSelects now s = true then { s with completed := true } else s)) ∧
    ((sweepRun now st).reservations =
        st.reservations.map (sweptRes now st.sessions) ∧
     (∀ r : Reservation, sweptRes now st.sessions r =
       if r.status = Status.active ∧ (∃ s ∈ st.sessions,
           sweepSelects now s = true ∧ s.id = r.session_id)
         then { r with status := Status.attended } else r)) ∧
    (∀ uname (ms : List Member) m, findMemberCI uname ms = some m →
      0 < m.credits →
      ∃ pre post, ms = pre ++ m :: post ∧
        debitMember uname ms = pre ++ { m with credits := m.credits - 1 } :: post) ∧
    (∀ uname (ms : List Member) m, findMemberCI uname ms = some m →
      m.credits ≤ 0 → debitMember uname ms = ms) ∧
    (∀ uname (ms : List Member), findMemberCI uname ms = none →
      debitMember uname ms = ms) ∧
    ((∀ s ∈ st.sessions, sweepSelects now s = false) → sweepRun now st = st) := by
  refine ⟨⟨sweepRun_sessions now st, ?_, fun s => rfl⟩,
    ⟨sweepRun_reservations now st, fun r => sweptRes_eq now st.sessions r⟩,
    fun uname ms m hm hpos => debitMember_split hm hpos,
    fun uname ms m hm hz => debitMember_zero hm hz,
    fun uname ms hm => debitMember_none hm,
    sweepRun_no_select now st⟩
  intro s
  show (!s.completed && dtBefore s.date s.time now.1 now.2) = true ↔ _
  rw [Bool.and_eq_true, Bool.not_eq_true']
  unfold dtBefore
  rw [decide_eq_true_eq]

/-- Witness: the debit clause of `claim_C3` at a concrete member list. -/
theorem claim_C3_wit :
    findMemberCI "ana" stW.members = some ⟨1, "ana", 3⟩ ∧ (0:Int) < 3 ∧
    (∃ pre post, stW.members = pre ++ (⟨1, "ana", 3⟩ : Member) :: post ∧
      debitMember "ana" stW.members =
        pre ++ (⟨1, "ana", 3 - 1⟩ : Member) :: post) :=
  ⟨by decide, by decide,
    (claim_C3 (5, 0) stW).2.2.1 "ana" stW.members ⟨1, "ana", 3⟩
      (by decide) (by decide)⟩
